import Mathlib

/-!
Shallow embedding of the read-only SQLite-style query engine in
`src/app/main.py` and `src/app/parser.py`, together with theorems that
settle the frozen claims about its specification.

Conventions of the embedding:
* a file or page is a `List Nat` of byte values;
* Python exceptions (`IndexError`, `struct.error`, `AssertionError`,
  `NotImplementedError`, uncaught `KeyError`, invalid `seek`) are modelled
  by an explicit error type `PyErr`, and a fuel counter models
  nontermination of `while` loops (`PyErr.outOfFuel`);
* Python's unbounded integers are `Nat`/`Int`;
* text decoding (`bytes.decode(text_encoding)`) is an external codec and is
  modelled by a `DBConfig.decodeText` function field: `some s` models a
  successful decode, `none` models `UnicodeDecodeError` (in which case the
  source keeps the raw bytes).
-/

/-- Errors corresponding to the Python exceptions the source can raise. -/
inductive PyErr where
  | indexError
  | structError
  | notImplemented
  | assertionFailed
  | osError
  | outOfFuel
deriving DecidableEq, Repr

/-- Decoded column values, as in `parse_record` (`src/app/main.py`).
`realTuple` keeps the raw 8 payload bytes of a serial-type-7 column: the
source stores the *tuple* returned by `struct.unpack_from` (a quirk at
`main.py:302`), so a real value never compares equal to any text or int. -/
inductive Value where
  | null
  | int (i : Int)
  | realTuple (bytes : List Nat)
  | blob (bytes : List Nat)
  | text (s : String)
deriving DecidableEq, Repr

/-- `DBConfig` from `main.py` (page size and text encoding); the encoding
is represented by its decoding function, see the module comment. -/
structure DBConfig where
  pageSize : Nat
  decodeText : List Nat → Option String

/-- `TableInfo` from `main.py`: root page and optional integer-primary-key
alias column index. -/
structure TableInfo where
  rootpage : Nat
  intPkColumn : Option Nat
deriving DecidableEq, Repr

/-- Read one byte, `buf[i]` style (None models `IndexError`). -/
def u8At (buf : List Nat) (i : Nat) : Option Nat := buf[i]?

/-- Big-endian u16 at an offset, as `struct.unpack_from` with format `>H`. -/
def u16At (buf : List Nat) (i : Nat) : Option Nat :=
  match buf[i]?, buf[i+1]? with
  | some a, some b => some (a * 256 + b)
  | _, _ => none

/-- Big-endian u32 at an offset, as `struct.unpack_from` with format `>I`. -/
def u32At (buf : List Nat) (i : Nat) : Option Nat :=
  match buf[i]?, buf[i+1]?, buf[i+2]?, buf[i+3]? with
  | some a, some b, some c, some d =>
      some (((a * 256 + b) * 256 + c) * 256 + d)
  | _, _, _, _ => none

/-- Python slice `buf[a : a + len]` (clamps, never fails). -/
def pySlice (buf : List Nat) (a len : Nat) : List Nat :=
  (buf.drop a).take len

/-- Big-endian unsigned value of a byte string. -/
def beNat (bs : List Nat) : Nat :=
  bs.foldl (fun acc b => acc * 256 + b) 0

/-- `int.from_bytes(bs, byteorder="big", signed=True)`: two's-complement
signed big-endian; the empty string decodes to 0. -/
def sbe (bs : List Nat) : Int :=
  match bs with
  | [] => 0
  | b :: _ =>
      if 128 ≤ b then (beNat bs : Int) - 2 ^ (8 * bs.length)
      else (beNat bs : Int)

/-- Loop body of `parse_varint` (`main.py:232-243`): iterates `i` over
`range(offset, offset + 9)`; each byte contributes its low 7 bits
(`n = (n << 7) | (byte & 0x7F)`), stopping when the high bit is clear.
If no byte in the 9-byte window has a clear high bit, the Python
`for`/`else` sets `i = -1`, so the returned consumed count is
`i + 1 - offset = -offset`.  `none` models `IndexError` on `buf[i]`. -/
def parseVarintGo (buf : List Nat) (offset : Nat) :
    Nat → Nat → Nat → Option (Nat × Int)
  | 0, _, n => some (n, -(offset : Int))
  | fuel + 1, i, n =>
    match buf[i]? with
    | none => none
    | some b =>
      let n2 := (n <<< 7) ||| (b &&& 0x7F)
      if b &&& 0x80 == 0 then some (n2, (i : Int) + 1 - (offset : Int))
      else parseVarintGo buf offset fuel (i + 1) n2

/-- `parse_varint(buf, offset)` from `main.py:232-243`. -/
def parseVarint (buf : List Nat) (offset : Nat) : Option (Nat × Int) :=
  parseVarintGo buf offset 9 offset 0

/-- `size_for_type` from `main.py:245-260`; `none` models the
`NotImplementedError` raised for serial types 10 and 11. -/
def sizeForType (st : Nat) : Option Nat :=
  if st < 5 then some st
  else if st = 5 then some 6
  else if 6 ≤ st ∧ st ≤ 7 then some 8
  else if 8 ≤ st ∧ st ≤ 9 then some 0
  else if 12 ≤ st ∧ st % 2 = 0 then some ((st - 12) / 2)
  else if 13 ≤ st ∧ st % 2 = 1 then some ((st - 13) / 2)
  else none

/-- `BTreeHeader` namedtuple from `main.py:191-201`. -/
structure BTreeHeader where
  type : Nat
  firstFreeblock : Nat
  cellCount : Nat
  cellContentStart : Nat
  fragmentedFreeBytes : Nat
  rightmostPointer : Nat
deriving DecidableEq, Repr

/-- `parse_btree_header(page, is_first_page)` from `main.py:209-230`.
Reads `>BHHHB` at offset 100 (first page) or 0, plus a `>I` rightmost
pointer when the type byte is 0x02 or 0x05; `none` models `struct.error`
on a short buffer.  Note the source performs *no* validation of the type
byte: any value outside {2, 5} falls into the leaf-shaped 8-byte branch. -/
def parseBtreeHeader (page : List Nat) (isFirstPage : Bool) :
    Option (BTreeHeader × Nat) :=
  let off := if isFirstPage then 100 else 0
  match u8At page off, u16At page (off+1), u16At page (off+3),
        u16At page (off+5), u8At page (off+7) with
  | some t, some ff, some cc, some ccs, some fr =>
      let ccs2 := if ccs = 0 then 65536 else ccs
      if t = 2 ∨ t = 5 then
        match u32At page (off+8) with
        | some rm => some (⟨t, ff, cc, ccs2, fr, rm⟩, 12)
        | none => none
      else some (⟨t, ff, cc, ccs2, fr, 0⟩, 8)
  | _, _, _, _, _ => none

/-- `get_page(file, db_config, id_)` from `main.py:333-336`: seeks to
`(id - 1) * page_size` and reads up to `page_size` bytes.  A short read
near end of file simply returns the shorter buffer (Python `file.read`
semantics).  `id = 0` would make the source seek to a negative position,
which raises `OSError`, modelled by `PyErr.osError`. -/
def getPage (file : List Nat) (cfg : DBConfig) (id : Nat) :
    Except PyErr (List Nat) :=
  if id = 0 then .error .osError
  else .ok ((file.drop ((id - 1) * cfg.pageSize)).take cfg.pageSize)

/-- Python `dict` insertion (`d[k] = v`): overwrite in place if the key is
present, else append; only lookup and size are observable here. -/
def dictInsert {α : Type} [BEq α] (d : List (α × Nat)) (k : α) (v : Nat) :
    List (α × Nat) :=
  if d.any (fun kv => kv.1 == k) then
    d.map (fun kv => if kv.1 == k then (k, v) else kv)
  else d ++ [(k, v)]

/-- Python `d.get(k)` / `k in d` on the dict model. -/
def dictLookup {α : Type} [BEq α] (d : List (α × Nat)) (k : α) : Option Nat :=
  match d.find? (fun kv => kv.1 == k) with
  | some kv => some kv.2
  | none => none

/-- The dict comprehension at `main.py:277`:
`{column_id: order for order, column_id in enumerate(selection)}`. -/
def buildColSel (selection : List Nat) : List (Nat × Nat) :=
  selection.enum.foldl (fun d oc => dictInsert d oc.2 oc.1) []

/-- Whether `value != where_text` is false in Python, i.e. the decoded
value equals the filter literal: only a text value can equal a `str`. -/
def valueEqStr (v : Value) (s : String) : Bool :=
  match v with
  | .text t => t == s
  | _ => false

/-- The per-column value computation of `parse_record`
(`main.py:285-317`), for one column of serial type `st` at a payload
offset.  Serial type 0 yields the row id when the column index equals
`table_info.int_pk_column` and NULL otherwise; 1-6 are signed big-endian
ints; 7 is the `struct.unpack_from(">d", ...)` tuple (raw bytes here,
`struct.error` on a short buffer); 8/9 the constants 0/1; even ≥ 12 a
blob; odd ≥ 13 text under the file encoding with raw bytes kept on a
`UnicodeDecodeError`; anything else raises `NotImplementedError`. -/
def decodeColumnValue (cfg : DBConfig) (ti : TableInfo) (page : List Nat)
    (rowid : Nat) (offset : Nat) (colId : Nat) (st : Nat) :
    Except PyErr Value :=
  if st = 0 then
    if ti.intPkColumn = some colId then .ok (.int rowid) else .ok .null
  else if 1 ≤ st ∧ st ≤ 6 then
    let nbs := if st < 5 then st else if st = 5 then 6 else 8
    .ok (.int (sbe (pySlice page offset nbs)))
  else if st = 7 then
    if offset + 8 ≤ page.length then .ok (.realTuple (pySlice page offset 8))
    else .error .structError
  else if st = 8 ∨ st = 9 then
    .ok (.int (if st = 9 then 1 else 0))
  else if 12 ≤ st ∧ st % 2 = 0 then
    .ok (.blob (pySlice page offset ((st - 12) / 2)))
  else if 13 ≤ st ∧ st % 2 = 1 then
    let bs := pySlice page offset ((st - 13) / 2)
    match cfg.decodeText bs with
    | some s => .ok (.text s)
    | none => .ok (.blob bs)
  else .error .notImplemented

/-- The serial-type header loop of `parse_record` (`main.py:268-275`):
`while offset != header_end`, collect `(serial_type, size)` pairs, advance
by each varint's consumed count, and accumulate `total_size`.  Returns
(column types, final offset = header end, total size).  The fuel models
the possibility that the loop never reaches `header_end` (the source
would hang or die on `IndexError`). -/
def recordHeaderLoop (page : List Nat) (headerEnd : Nat) :
    Nat → Nat → Nat → List (Nat × Nat) →
    Except PyErr (List (Nat × Nat) × Nat × Nat)
  | 0, _, _, _ => .error .outOfFuel
  | fuel + 1, offset, totalSize, acc =>
    if offset = headerEnd then .ok (acc, offset, totalSize)
    else
      match parseVarint page offset with
      | none => .error .indexError
      | some (st, c) =>
        match sizeForType st with
        | none => .error .notImplemented
        | some sz =>
            recordHeaderLoop page headerEnd fuel
              (((offset : Int) + c).toNat) (totalSize + sz) (acc ++ [(st, sz)])

/-- The column loop of `parse_record` (`main.py:280-325`).  Arguments
after the fixed context: remaining `(serial_type, size)` pairs, the
current column id, the moving payload offset, and `column_values`.
A column that is neither selected nor the filter column is skipped by
advancing the offset.  Otherwise its value is decoded; a filter mismatch
returns `(none, total_size)` early; a selected column's value is stored
at its dict slot (`column_values[column_selection[column_id]] = value`,
with `IndexError` when the slot is out of range).  The in-order final
result is `(some column_values, final offset)`. -/
def recordLoop (cfg : DBConfig) (ti : TableInfo) (page : List Nat)
    (rowid : Nat) (w : Option (Nat × String)) (colSel : List (Nat × Nat))
    (totalSize : Nat) :
    List (Nat × Nat) → Nat → Nat → List Value →
    Except PyErr (Option (List Value) × Nat)
  | [], _, offset, colVals => .ok (some colVals, offset)
  | (st, sz) :: rest, colId, offset, colVals =>
    if (dictLookup colSel colId).isNone &&
        (match w with | none => true | some p => colId != p.1) then
      recordLoop cfg ti page rowid w colSel totalSize rest (colId + 1)
        (offset + sz) colVals
    else
      match decodeColumnValue cfg ti page rowid offset colId st with
      | .error e => .error e
      | .ok v =>
        if (match w with
            | none => false
            | some p => colId == p.1 && !(valueEqStr v p.2)) then
          .ok (none, totalSize)
        else
          match dictLookup colSel colId with
          | some s =>
            if s < colVals.length then
              recordLoop cfg ti page rowid w colSel totalSize rest
                (colId + 1) (offset + sz) (colVals.set s v)
            else .error .indexError
          | none =>
            recordLoop cfg ti page rowid w colSel totalSize rest
              (colId + 1) (offset + sz) colVals

/-- The header phase of `parse_record` (`main.py:264-275`): decode the
header-length varint and run the serial-type loop, yielding the
`(serial_type, size)` pairs, the payload start (= `header_end`) and
`total_size`. -/
def recordColTypes (page : List Nat) (offset : Nat) :
    Except PyErr (List (Nat × Nat) × Nat × Nat) :=
  match parseVarint page offset with
  | none => .error .indexError
  | some (headerSize, c) =>
    recordHeaderLoop page (offset + headerSize) (page.length + headerSize + 2)
      (((offset : Int) + c).toNat) headerSize []

/-- `parse_record(db_config, table_info, page, rowid, offset, selection,
where)` from `main.py:262-327` (the header phase is factored into
`recordColTypes`).  Returns either `(none, total_size)` when the filter
rejected the row, or `(some column_values, consumed)` where
`consumed = final_offset - initial_offset`. -/
def parseRecord (cfg : DBConfig) (ti : TableInfo) (page : List Nat)
    (rowid : Nat) (offset : Nat) (selection : List Nat)
    (w : Option (Nat × String)) :
    Except PyErr (Option (List Value) × Int) :=
  let initialOffset := offset
  match recordColTypes page offset with
  | .error e => .error e
  | .ok (colTypes, bodyStart, totalSize) =>
    let colSel := buildColSel selection
    let colVals := List.replicate colSel.length Value.null
    match recordLoop cfg ti page rowid w colSel totalSize colTypes 0
        bodyStart colVals with
    | .error e => .error e
    | .ok (none, t) => .ok (none, (t : Int))
    | .ok (some vals, fin) =>
        .ok (some vals, (fin : Int) - (initialOffset : Int))

/-- One entry per leaf cell visited by the traversal: the cell's row id
and `parse_record`'s result (`none` when the filter rejected the row).
The rows the source's generator actually yields are the `some` payloads,
in order (see `readTable`). -/
abbrev CellRows := List (Nat × Option (List Value))

/-- The cell loop of `_read_table` (`main.py:351-376`), processing
`count` cells whose pointer array starts at `btreeOffset`.  For an
interior table page (type 0x05) each cell holds a u32 left-child page
id and the traversal recurses through `child`; for any other type the
source asserts the page is a table leaf (0x0D) and otherwise decodes
`payload_size` and `rowid` varints followed by the record, asserting that
the record consumed exactly `payload_size` bytes.  `child` is
instantiated with the recursive call of `readTableAux` (which fetches the
child page via `get_page`, as the source does before recursing). -/
def readCells (child : Nat → Except PyErr CellRows)
    (cfg : DBConfig) (ti : TableInfo) (selection : List Nat)
    (w : Option (Nat × String)) (page : List Nat) (htype : Nat) :
    Nat → Nat → Except PyErr CellRows
  | 0, _ => .ok []
  | count + 1, btreeOffset =>
    match u16At page btreeOffset with
    | none => .error .structError
    | some cellContentOffset =>
      if htype = 5 then
        match u32At page cellContentOffset with
        | none => .error .structError
        | some leftPtr =>
          match child leftPtr with
          | .error e => .error e
          | .ok rows1 =>
            match readCells child cfg ti selection w page htype count
                (btreeOffset + 2) with
            | .error e => .error e
            | .ok rest => .ok (rows1 ++ rest)
      else if htype ≠ 13 then .error .assertionFailed
      else
        match parseVarint page cellContentOffset with
        | none => .error .indexError
        | some (payloadSize, c1) =>
          let o1 := ((cellContentOffset : Int) + c1).toNat
          match parseVarint page o1 with
          | none => .error .indexError
          | some (rowid, c2) =>
            let o2 := ((o1 : Int) + c2).toNat
            match parseRecord cfg ti page rowid o2 selection w with
            | .error e => .error e
            | .ok (colVals, consumed) =>
              if consumed ≠ (payloadSize : Int) then .error .assertionFailed
              else
                match readCells child cfg ti selection w page htype count
                    (btreeOffset + 2) with
                | .error e => .error e
                | .ok rest => .ok ((rowid, colVals) :: rest)

/-- `_read_table(file, db_config, table_info, page, selection, where)`
from `main.py:343-380`, with a fuel bound on the recursion depth.  Note
the source decodes *every* page of the scan — the root and all pages
reached through child pointers — with
`is_first_page = (table_info.rootpage == 1)`, and likewise adds the
100-byte skew to the cell-pointer array start on every page of a scan
rooted at page 1.  After the cells, an interior table page recurses into
its rightmost pointer. -/
def readTableAux (file : List Nat) (cfg : DBConfig) (ti : TableInfo)
    (selection : List Nat) (w : Option (Nat × String)) :
    Nat → List Nat → Except PyErr CellRows
  | 0, _ => .error .outOfFuel
  | fuel + 1, page =>
    match parseBtreeHeader page (ti.rootpage == 1) with
    | none => .error .structError
    | some (h, bytesRead) =>
      let btreeOffset := bytesRead + (if ti.rootpage == 1 then 100 else 0)
      let child : Nat → Except PyErr CellRows := fun pgno =>
        match getPage file cfg pgno with
        | .error e => .error e
        | .ok p => readTableAux file cfg ti selection w fuel p
      match readCells child cfg ti selection w page h.type h.cellCount
          btreeOffset with
      | .error e => .error e
      | .ok rows =>
        if h.type = 5 then
          match getPage file cfg h.rightmostPointer with
          | .error e => .error e
          | .ok rp =>
            match readTableAux file cfg ti selection w fuel rp with
            | .error e => .error e
            | .ok more => .ok (rows ++ more)
        else .ok rows

/-- `read_table` from `main.py:338-341` with the per-cell
instrumentation of `CellRows`: fetch the root page and traverse. -/
def readTableTop (file : List Nat) (cfg : DBConfig) (ti : TableInfo)
    (selection : List Nat) (w : Option (Nat × String)) (fuel : Nat) :
    Except PyErr CellRows :=
  match getPage file cfg ti.rootpage with
  | .error e => .error e
  | .ok page => readTableAux file cfg ti selection w fuel page

/-- The observable output of `read_table`: the sequence of
`column_values` lists the generator yields, i.e. the non-filtered rows in
traversal order. -/
def readTable (file : List Nat) (cfg : DBConfig) (ti : TableInfo)
    (selection : List Nat) (w : Option (Nat × String)) (fuel : Nat) :
    Except PyErr (List (List Value)) :=
  match readTableTop file cfg ti selection w fuel with
  | .error e => .error e
  | .ok cells => .ok (cells.filterMap (fun rc => rc.2))

/-- The child-page fetch-and-recurse step of `_read_table`
(`main.py:356-358` and `379-380`): `get_page` then the recursive call,
at one fuel level lower than the caller. -/
def tableChild (file : List Nat) (cfg : DBConfig) (ti : TableInfo)
    (selection : List Nat) (w : Option (Nat × String)) (fuel : Nat) :
    Nat → Except PyErr CellRows := fun pgno =>
  match getPage file cfg pgno with
  | .error e => .error e
  | .ok p => readTableAux file cfg ti selection w fuel p

/-- Sequential traversal of a list of sibling subtrees, concatenating
their cell lists (the shape `_read_table` produces when it visits each
child of an interior page in cell order). -/
def childSeq (child : Nat → Except PyErr CellRows) :
    List Nat → Except PyErr CellRows
  | [] => .ok []
  | p :: ps =>
    match child p with
    | .error e => .error e
    | .ok a =>
      match childSeq child ps with
      | .error e => .error e
      | .ok b => .ok (a ++ b)

/-- The cell-pointer array of a page: `count` big-endian u16s starting at
`off`, exactly the values `_read_table` reads one per loop iteration. -/
def cellPtrs (page : List Nat) : Nat → Nat → Option (List Nat)
  | 0, _ => some []
  | count + 1, off =>
    match u16At page off with
    | none => none
    | some cp =>
      match cellPtrs page count (off + 2) with
      | none => none
      | some rest => some (cp :: rest)

/-- Well-formedness of a sequence of sibling table-B-tree subtrees (given
by their root page ids) with respect to the scan context, carrying an
open-closed row-id interval `(lo, hi]`.  A leaf must decode (header type
0x0D) with its cells processing cleanly, its row ids strictly ascending
within `(lo, k]`; an interior page (type 0x05) must have decodable cell
pointers and child page ids whose subtrees (followed by the rightmost
pointer) are well-formed over `(lo, k]`; in both cases the remaining
siblings cover `(k, hi]`.  Decoding uses the source's own convention
`is_first_page = (rootpage == 1)` on every page of the scan. -/
inductive WFSeq (file : List Nat) (cfg : DBConfig) (ti : TableInfo)
    (selection : List Nat) (w : Option (Nat × String)) :
    Nat → List Nat → Int → Int → Prop where
  | nil : ∀ fuel lo hi, WFSeq file cfg ti selection w fuel [] lo hi
  | leaf : ∀ fuel pid rest lo k hi page h br cells,
      getPage file cfg pid = .ok page →
      parseBtreeHeader page (ti.rootpage == 1) = some (h, br) →
      h.type = 13 →
      readCells (tableChild file cfg ti selection w fuel) cfg ti selection w
        page h.type h.cellCount
        (br + (if ti.rootpage == 1 then 100 else 0)) = .ok cells →
      List.Chain' (· < ·) (cells.map Prod.fst) →
      (∀ r ∈ cells.map Prod.fst, lo < (r : Int) ∧ (r : Int) ≤ k) →
      lo ≤ k → k ≤ hi →
      WFSeq file cfg ti selection w (fuel + 1) rest k hi →
      WFSeq file cfg ti selection w (fuel + 1) (pid :: rest) lo hi
  | interior : ∀ fuel pid rest lo k hi page h br cps kids,
      getPage file cfg pid = .ok page →
      parseBtreeHeader page (ti.rootpage == 1) = some (h, br) →
      h.type = 5 →
      cellPtrs page h.cellCount
        (br + (if ti.rootpage == 1 then 100 else 0)) = some cps →
      cps.mapM (u32At page) = some kids →
      WFSeq file cfg ti selection w fuel (kids ++ [h.rightmostPointer]) lo k →
      lo ≤ k → k ≤ hi →
      WFSeq file cfg ti selection w (fuel + 1) rest k hi →
      WFSeq file cfg ti selection w (fuel + 1) (pid :: rest) lo hi

/-- Strictly ascending row ids, all inside the interval `(lo, hi]`. -/
def AscBounded (lo hi : Int) (l : List Nat) : Prop :=
  List.Chain' (· < ·) l ∧ ∀ r ∈ l, lo < (r : Int) ∧ (r : Int) ≤ hi

/-- Modelled from the claim C4 wording for comparison with the source's
`_read_table`: identical traversal, except that each visited page is
decoded with `is_first_page` true exactly when *that* page is page 1 (and
the cell-pointer skew likewise), instead of the source's
`table_info.rootpage == 1` on every page.  It therefore tracks page
numbers rather than page buffers. -/
def readTableAuxSpec (file : List Nat) (cfg : DBConfig) (ti : TableInfo)
    (selection : List Nat) (w : Option (Nat × String)) :
    Nat → Nat → Except PyErr CellRows
  | 0, _ => .error .outOfFuel
  | fuel + 1, pid =>
    match getPage file cfg pid with
    | .error e => .error e
    | .ok page =>
      match parseBtreeHeader page (pid == 1) with
      | none => .error .structError
      | some (h, bytesRead) =>
        let btreeOffset := bytesRead + (if pid == 1 then 100 else 0)
        let child : Nat → Except PyErr CellRows := fun pgno =>
          readTableAuxSpec file cfg ti selection w fuel pgno
        match readCells child cfg ti selection w page h.type h.cellCount
            btreeOffset with
        | .error e => .error e
        | .ok rows =>
          if h.type = 5 then
            match readTableAuxSpec file cfg ti selection w fuel
                h.rightmostPointer with
            | .error e => .error e
            | .ok more => .ok (rows ++ more)
          else .ok rows

/-- The rows the spec-per-claim-C4 traversal emits from the root. -/
def readTableSpec (file : List Nat) (cfg : DBConfig) (ti : TableInfo)
    (selection : List Nat) (w : Option (Nat × String)) (fuel : Nat) :
    Except PyErr (List (List Value)) :=
  match readTableAuxSpec file cfg ti selection w fuel ti.rootpage with
  | .error e => .error e
  | .ok cells => .ok (cells.filterMap (fun rc => rc.2))

/-- Sum of the on-disk widths of a record's columns. -/
def sizesSum (cts : List (Nat × Nat)) : Nat := (cts.map Prod.snd).sum

/-- The `COUNT(*)` output of `main` (`main.py:177-182`):
`i = -1; for i, _ in enumerate(rows): pass; print(i + 1)` prints the
number of rows the generator yielded. -/
def countStarOutput (rows : List (List Value)) : Int :=
  (rows.foldl (fun i _ => i + 1) (-1 : Int)) + 1

/-- Errors of the external SQL front end (`src/app/parser.py`): a
`ParseError`, or fuel exhaustion of a scanning/parsing loop (unreachable
for the adequate fuel the wrappers supply). -/
inductive PErr where
  | parseDied
  | outOfFuel
deriving DecidableEq, Repr

/-- A token of `parser.py`: `(type, text)`, e.g. `("NAME", "id")`. -/
abbrev Tok := String × String

/-- Single-quote character (string-literal terminator in SQL). -/
def squote : Char := Char.ofNat 39

/-- Double-quote character. -/
def dquote : Char := Char.ofNat 34

/-- ASCII-adequate model of Python `str.casefold()` (the source only
compares ASCII keywords and identifiers); written over the character
list so that concrete runs reduce inside the kernel. -/
def casefold (s : String) : String := String.mk (s.data.map Char.toLower)

/-- Python `str.startswith`, over character lists. -/
def strStartsWith (p s : String) : Bool := p.data.isPrefixOf s.data

/-- `_one_char_tokens` from `parser.py:40-47`. -/
def oneCharToken (c : Char) : Option String :=
  if c = ',' then some "COMMA"
  else if c = '(' then some "LPAREN"
  else if c = ')' then some "RPAREN"
  else if c = ';' then some "SEMICOLON"
  else if c = '*' then some "STAR"
  else if c = '=' then some "EQUAL"
  else none

/-- `_keywords` from `parser.py:50-56` (keys are casefolded). -/
def keywordType (name : String) : Option String :=
  let n := casefold name
  if n = "select" then some "SELECT"
  else if n = "from" then some "FROM"
  else if n = "where" then some "WHERE"
  else if n = "create" then some "CREATE"
  else if n = "table" then some "TABLE"
  else none

/-- Identifier-continuation characters (`parser.py:72`):
`isalnum() or == "_"` (ASCII model). -/
def isIdentChar (c : Char) : Bool := c.isAlphanum || c = '_'

/-- The string-literal loop of `_scan` (`parser.py:78-93`): consume until
the terminator; a peeked doubled terminator appends one copy and lets the
next iteration consume it.  End of input raises
`ParseError("Unterminated string literal")`. -/
def scanString (terminator : Char) :
    Nat → List Char → String → Except PErr (String × List Char)
  | 0, _, _ => .error .outOfFuel
  | fuel + 1, cs, acc =>
    match cs with
    | [] => .error .parseDied
    | c :: rest =>
      if c = terminator then
        if rest.head? = some terminator then
          scanString terminator fuel rest (acc.push terminator)
        else .ok (acc, rest)
      else scanString terminator fuel rest (acc.push c)

/-- `_scan` from `parser.py:59-95` over a character list (ASCII model of
`isspace`/`isalpha`): skip whitespace, single-character tokens, identifier
or keyword munching, and string literals; any other character raises
`ParseError`. -/
def scanAux : Nat → List Char → Except PErr (List Tok)
  | 0, _ => .error .outOfFuel
  | fuel + 1, cs =>
    match cs with
    | [] => .ok []
    | c :: rest =>
      if c.isWhitespace then scanAux fuel rest
      else
        match oneCharToken c with
        | some ty =>
          match scanAux fuel rest with
          | .error e => .error e
          | .ok toks => .ok ((ty, c.toString) :: toks)
        | none =>
          if c.isAlpha then
            let name := c.toString ++ String.mk (rest.takeWhile isIdentChar)
            let rest2 := rest.dropWhile isIdentChar
            let tok : Tok :=
              match keywordType name with
              | some kw => (kw, name)
              | none => ("NAME", name)
            match scanAux fuel rest2 with
            | .error e => .error e
            | .ok toks => .ok (tok :: toks)
          else if c = squote ∨ c = dquote then
            match scanString c (rest.length + 1) rest "" with
            | .error e => .error e
            | .ok (content, rest2) =>
              match scanAux fuel rest2 with
              | .error e => .error e
              | .ok toks => .ok (("STRING", content) :: toks)
          else .error .parseDied

/-- `scan(text)` from `parser.py:36-37`. -/
def scanTokens (s : String) : Except PErr (List Tok) :=
  scanAux (s.length + 1) s.data

/-- `_expect(it, ty)` from `parser.py:98-105`. -/
def expectTok (toks : List Tok) (ty : String) : Except PErr (Tok × List Tok) :=
  match toks with
  | [] => .error .parseDied
  | t :: rest => if t.1 = ty then .ok (t, rest) else .error .parseDied

/-- The inner type-words loop of `_parse_create_table`
(`parser.py:221-222`): `_expect NAME` while the next token is neither
`COMMA` nor `RPAREN`. -/
def parseTypeParts : Nat → List Tok → Except PErr (List String × List Tok)
  | 0, _ => .error .outOfFuel
  | fuel + 1, toks =>
    match toks with
    | [] => .ok ([], [])
    | t :: _ =>
      if t.1 = "COMMA" ∨ t.1 = "RPAREN" then .ok ([], toks)
      else
        match expectTok toks "NAME" with
        | .error e => .error e
        | .ok (nt, rest) =>
          match parseTypeParts fuel rest with
          | .error e => .error e
          | .ok (parts, rest2) => .ok (nt.2 :: parts, rest2)

/-- The column loop of `_parse_create_table` (`parser.py:213-224`): until
`RPAREN` (or end of input), an optional separating `COMMA`, a `NAME`
column name, then the type words joined with single spaces. -/
def parseColumns :
    Nat → Bool → List Tok → Except PErr (List (String × String) × List Tok)
  | 0, _, _ => .error .outOfFuel
  | fuel + 1, first, toks =>
    match toks with
    | [] => .ok ([], [])
    | t :: _ =>
      if t.1 = "RPAREN" then .ok ([], toks)
      else
        let afterComma : Except PErr (List Tok) :=
          if first then .ok toks
          else
            match expectTok toks "COMMA" with
            | .error e => .error e
            | .ok (_, rest) => .ok rest
        match afterComma with
        | .error e => .error e
        | .ok toks1 =>
          match expectTok toks1 "NAME" with
          | .error e => .error e
          | .ok (ct, rest1) =>
            match parseTypeParts (rest1.length + 1) rest1 with
            | .error e => .error e
            | .ok (parts, rest2) =>
              match parseColumns fuel false rest2 with
              | .error e => .error e
              | .ok (cols, rest3) =>
                .ok ((ct.2, String.intercalate " " parts) :: cols, rest3)

/-- `_parse_create_table` from `parser.py:199-232` over a token list:
`CREATE TABLE`, a `NAME` or `STRING` table name, the parenthesised column
list, and an optional trailing semicolon. -/
def parseCreateTableToks (toks : List Tok) :
    Except PErr ((String × List (String × String)) × List Tok) :=
  match expectTok toks "CREATE" with
  | .error e => .error e
  | .ok (_, t1) =>
    match expectTok t1 "TABLE" with
    | .error e => .error e
    | .ok (_, t2) =>
      match t2 with
      | [] => .error .parseDied
      | nameTok :: t3 =>
        if nameTok.1 = "NAME" ∨ nameTok.1 = "STRING" then
          match expectTok t3 "LPAREN" with
          | .error e => .error e
          | .ok (_, t4) =>
            match parseColumns (t4.length + 1) true t4 with
            | .error e => .error e
            | .ok (cols, t5) =>
              match expectTok t5 "RPAREN" with
              | .error e => .error e
              | .ok (_, t6) =>
                match t6 with
                | [] => .ok ((nameTok.2, cols), [])
                | endTok :: t7 =>
                  if endTok.1 = "SEMICOLON" then .ok ((nameTok.2, cols), t7)
                  else .error .parseDied
        else .error .parseDied

/-- `next(parser.parse(sql))` for a `CREATE TABLE` statement
(`parser.py:108-131` dispatching to `_parse_create_table`), including the
trailing-tokens check of `_parse`.  Returns the table name and the
`(column name, declared type)` pairs. -/
def parseCreate (text : String) :
    Except PErr (String × List (String × String)) :=
  match scanTokens text with
  | .error e => .error e
  | .ok toks =>
    match parseCreateTableToks toks with
    | .error e => .error e
    | .ok (stmt, rest) =>
      if rest = [] then .ok stmt else .error .parseDied

/-- The primary-key search of `main` (`main.py:113-120`): the first
column whose declared type satisfies
`column.type.casefold().startswith("integer primary key".casefold())`,
scanning from index `i`. -/
def findIntPkFrom : Nat → List (String × String) → Option Nat
  | _, [] => none
  | i, c :: rest =>
    if strStartsWith (casefold "integer primary key") (casefold c.2) then some i
    else findIntPkFrom (i + 1) rest

/-- `primary_key_column_idx` resolution of `main.py:113-120`. -/
def findIntPk (cols : List (String × String)) : Option Nat :=
  findIntPkFrom 0 cols

/-- Splitting a character list on whitespace runs, dropping empty
tokens (the behavior of Python `str.split()` with no argument); `acc`
holds the current token's characters in reverse. -/
def splitWsAux : List Char → List Char → List String
  | [], acc => if acc = [] then [] else [String.mk acc.reverse]
  | c :: rest, acc =>
    if c.isWhitespace then
      if acc = [] then splitWsAux rest []
      else String.mk acc.reverse :: splitWsAux rest []
    else splitWsAux rest (c :: acc)

/-- Whitespace-separated tokens of a string, empty tokens dropped. -/
def splitTokens (s : String) : List String := splitWsAux s.data []

/-- Modelled from the claim C6 wording: does the declared type, lowercased
and split into whitespace-separated tokens, begin with the three tokens
`integer`, `primary`, `key`? -/
def specIntPkMatches (ty : String) : Bool :=
  match splitTokens (casefold ty) with
  | t1 :: t2 :: t3 :: _ => t1 = "integer" && t2 = "primary" && t3 = "key"
  | _ => false

/-- Modelled from the claim C6 wording: first column index whose type
matches the token rule, scanning from index `i`. -/
def findIntPkSpecFrom : Nat → List (String × String) → Option Nat
  | _, [] => none
  | i, c :: rest =>
    if specIntPkMatches c.2 then some i
    else findIntPkSpecFrom (i + 1) rest

/-- Modelled from the claim C6 wording: the token-rule primary-key
column. -/
def findIntPkSpec (cols : List (String × String)) : Option Nat :=
  findIntPkSpecFrom 0 cols

/-- The select-expression AST of `parser.py` (`StarExpr`, `NameExpr`,
`FunctionExpr`; `parser.py:115-117`). -/
inductive SelExpr where
  | star
  | name (s : String)
  | func (fname : String) (args : List SelExpr)

/-- `SelectStmt` from `parser.py:112`, with the `WHERE` clause already in
the only shape the parser produces (`parser.py:152-166`):
`BinaryExpr("EQUAL", NameExpr lhs, StringExpr rhs)`, modelled as the
`(lhs, rhs)` pair. -/
structure SelectStmtA where
  selects : List SelExpr
  fromTable : String
  whereCl : Option (String × String)

/-- Outcomes of the executor's column resolution (`main.py:126-166`):
`unsupported` models the "Only simple queries are supported" exit,
`unknownColumn` the caught `KeyError` ("Unknown column ..."), and
`uncaughtKeyError` the *uncaught* `KeyError` raised by the `WHERE` lookup
at `main.py:164`, which is outside the `try` block and crashes the
program with a traceback. -/
inductive ExecErr where
  | unsupported
  | unknownColumn (name : String)
  | uncaughtKeyError (name : String)
deriving DecidableEq, Repr

/-- `isinstance(e, NameExpr)`. -/
def isNameSel : SelExpr → Bool
  | .name _ => true
  | _ => false

/-- `is_count_star` from `main.py:126-132`. -/
def isCountStarStmt (stmt : SelectStmtA) : Bool :=
  match stmt.selects with
  | [SelExpr.func n args] =>
    n == "COUNT" && (match args with | [SelExpr.star] => true | _ => false)
  | _ => false

/-- The list comprehension at `main.py:151-154`:
`[column_order[ne.name.casefold()] for ne in stmt.selects]`, with the
first missing name raising `KeyError` (caught, so `unknownColumn`). -/
def lookupCols (d : List (String × Nat)) : List SelExpr → Except ExecErr (List Nat)
  | [] => .ok []
  | .name s :: rest =>
    match dictLookup d (casefold s) with
    | some i =>
      match lookupCols d rest with
      | .error e => .error e
      | .ok l => .ok (i :: l)
    | none => .error (.unknownColumn s)
  | _ :: _ => .error .unsupported

/-- `column_order` from `main.py:108-110`:
`{name.casefold(): i for i, (name, _type) in enumerate(columns)}`. -/
def buildColumnOrder (cols : List (String × String)) : List (String × Nat) :=
  cols.enum.foldl (fun d ic => dictInsert d (casefold ic.2.1) ic.1) []

/-- The selection and `WHERE` resolution of `main` (`main.py:126-166`)
against a `column_order` dict `d`: a single `*` selects all columns;
`COUNT(*)` selects none; otherwise every select must be a bare name
(else `unsupported`) and is looked up with `KeyError` caught as
`unknownColumn`.  The `WHERE` column lookup happens *after* the
`try`/`except` block, so a missing `WHERE` column is an uncaught
`KeyError`. -/
def resolveQuery (stmt : SelectStmtA) (d : List (String × Nat)) :
    Except ExecErr (List Nat × Option (Nat × String)) :=
  let selectedCols : Except ExecErr (List Nat) :=
    match stmt.selects with
    | [SelExpr.star] => .ok (List.range d.length)
    | _ =>
      if isCountStarStmt stmt then .ok []
      else if !(stmt.selects.all isNameSel) then .error .unsupported
      else lookupCols d stmt.selects
  match selectedCols with
  | .error e => .error e
  | .ok cols =>
    match stmt.whereCl with
    | none => .ok (cols, none)
    | some (lhs, rhs) =>
      match dictLookup d (casefold lhs) with
      | some i => .ok (cols, some (i, rhs))
      | none => .error (.uncaughtKeyError lhs)

/-- Propositional equality on `Except` values is decidable when it is on
both components (needed to evaluate the concrete runs below by
`decide`). -/
instance {ε α : Type} [DecidableEq ε] [DecidableEq α] :
    DecidableEq (Except ε α) := fun a b =>
  match a, b with
  | .ok x, .ok y =>
    if h : x = y then isTrue (by rw [h])
    else isFalse (by intro hc; cases hc; exact h rfl)
  | .error x, .error y =>
    if h : x = y then isTrue (by rw [h])
    else isFalse (by intro hc; cases hc; exact h rfl)
  | .ok _, .error _ => isFalse (by intro hc; cases hc)
  | .error _, .ok _ => isFalse (by intro hc; cases hc)

/-- A sample configuration for concrete runs (the codec rejects every
byte string, which is irrelevant to integer columns). -/
def sampleCfg : DBConfig := ⟨64, fun _ => none⟩

/-- A sample table rooted away from page 1, no integer primary key. -/
def sampleTi : TableInfo := ⟨2, none⟩

/-- A table-leaf page (type 0x0D) with two cells at offsets 20 and 30:
records `(rowid 1, [int 10])` and `(rowid 2, [int 20])`, each with
payload size 3 (header length 2, one serial-type-1 column). -/
def leafDemoPage : List Nat :=
  [13, 0, 0, 0, 2, 0, 0, 0] ++ [0, 20, 0, 30] ++ List.replicate 8 0 ++
  [3, 1, 2, 1, 10] ++ List.replicate 5 0 ++
  [3, 2, 2, 1, 20] ++ List.replicate 29 0

/-- A two-page database file (page size 64) whose page 2 is
`leafDemoPage`; page 1 is irrelevant padding. -/
def leafDemoFile : List Nat := List.replicate 64 0 ++ leafDemoPage

/-- Page 1 of the skew-demonstration file (page size 112): the B-tree
header at offset 100 is an interior table page (type 0x05), zero cells,
rightmost pointer 2. -/
def skewDemoP1 : List Nat :=
  List.replicate 100 0 ++ [5, 0, 0, 0, 0, 0, 0, 0] ++ [0, 0, 0, 2]

/-- Page 2 of the skew-demonstration file: a table leaf *at offset 0*
with one cell at offset 20 holding record `(rowid 1, [int 7])`; bytes
100..107 are zeros, so decoding this page with the 100-byte skew sees a
type-0 "leaf" with zero cells. -/
def skewDemoP2 : List Nat :=
  [13, 0, 0, 0, 1, 0, 0, 0] ++ [0, 20] ++ List.replicate 10 0 ++
  [3, 1, 2, 1, 7] ++ List.replicate 87 0

/-- The skew-demonstration database: a scan rooted at page 1 whose root
is interior with its only child the rightmost pointer (page 2). -/
def skewDemoFile : List Nat := skewDemoP1 ++ skewDemoP2

/-- Configuration for the skew-demonstration file. -/
def skewDemoCfg : DBConfig := ⟨112, fun _ => none⟩

/-- A scan rooted at page 1 (as the schema scan is). -/
def skewDemoTi : TableInfo := ⟨1, none⟩

/-- C1 (code bug): at a buffer of nine 0xFF bytes — at least 9 bytes
remain and each of the first 8 has its continuation bit set — the claim
requires `decode_varint` to consume exactly 9 bytes and produce
`2^64 - 1` (the low-7-bit groups of the first 8 bytes shifted left by 8,
OR-ed with the full 9th byte).  The source instead shifts by 7 and masks
the 9th byte to its low 7 bits, and its `for`/`else` sets `i = -1`, so it
returns the value `2^63 - 1` with a consumed count of `0 - offset = 0`. -/
theorem c1_parse_varint_nine_continuation_bytes :
    parseVarint (List.replicate 9 0xFF) 0 = some (2 ^ 63 - 1, 0) ∧
    parseVarint (List.replicate 9 0xFF) 0 ≠ some (2 ^ 64 - 1, 9) := by
  decide

/-- C3: the value `parse_record` materializes for a column whose serial
type is 0 (`main.py:285-289`) is the cell's row id when the column index
equals `table_info.int_pk_column`, and NULL for every other column. -/
theorem c3_serial_type_zero_materialization :
    ∀ (cfg : DBConfig) (ti : TableInfo) (page : List Nat)
      (rowid offset colId : Nat),
      decodeColumnValue cfg ti page rowid offset colId 0 =
        .ok (if ti.intPkColumn = some colId then Value.int rowid
             else Value.null) := by
  intro cfg ti page rowid offset colId
  simp only [decodeColumnValue, if_true, eq_self_iff_true]
  split <;> rfl

/-- C5 counterexample: for the duplicate projection `[0, 0]` on a record
with one serial-type-1 column, the claim requires a result vector of
length 2; the source instead sizes `column_values` by the number of
*distinct* selected columns (1 here) while the dict slot of column 0 is
its *last* projection position (1), so the store
`column_values[1] = value` raises `IndexError`. -/
theorem c5_duplicate_projection_index_error :
    parseRecord sampleCfg sampleTi [2, 1, 5] 1 0 [0, 0] none =
      .error .indexError := by
  decide

/-- C7 (code bug): with `column_order = {"name": 0}`, a `SELECT` whose
unknown column appears only in the `WHERE` clause dies with an *uncaught*
`KeyError` (the lookup at `main.py:164` is outside the `try` block), not
with the handled "Unknown column" report the claim requires; an unknown
column in the select list is, by contrast, caught and reported. -/
theorem c7_where_unknown_column_uncaught_key_error :
    resolveQuery ⟨[SelExpr.name "name"], "t", some ("missing", "x")⟩
        (buildColumnOrder [("name", "text")]) =
      .error (.uncaughtKeyError "missing") ∧
    resolveQuery ⟨[SelExpr.name "missing"], "t", none⟩
        (buildColumnOrder [("name", "text")]) =
      .error (.unknownColumn "missing") := by
  decide

/-- C8 counterexample: a page whose type byte is 7 — not one of the four
defined values — does not make `decode_page_header` fail: the source
returns an 8-byte leaf-shaped header (with `cell_content_start` 0 read as
65536 and `rightmost_pointer` 0). -/
theorem c8_unknown_type_returns_header :
    parseBtreeHeader [7, 0, 0, 0, 0, 0, 0, 0] false =
      some (⟨7, 0, 0, 65536, 0, 0⟩, 8) := by
  decide

/-- C9 counterexample: a 4-byte file with `page_size = 8`: `read_page 1`
is a short read, and the source returns the 4-byte buffer with no `Io`
error (Python `file.read` semantics), contrary to the claim. -/
theorem c9_short_read_returns_short_buffer :
    getPage [1, 2, 3, 4] ⟨8, fun _ => none⟩ 1 = .ok [1, 2, 3, 4] ∧
    ([1, 2, 3, 4] : List Nat).length < 8 := by
  decide

/-- Shifting the start index of the primary-key search shifts the found
index. -/
theorem findIntPkFrom_shift (cols : List (String × String)) :
    ∀ i : Nat, findIntPkFrom i cols =
      (findIntPkFrom 0 cols).map (fun j => i + j) := by
  induction cols with
  | nil => intro i; rfl
  | cons c rest ih =>
    intro i
    have hstep : ∀ m : Nat, findIntPkFrom m (c :: rest) =
        if strStartsWith (casefold "integer primary key")
            (casefold c.2) = true then some m
        else findIntPkFrom (m + 1) rest := fun _ => rfl
    rw [hstep i, hstep 0]
    by_cases hp : strStartsWith (casefold "integer primary key")
        (casefold c.2) = true
    · rw [if_pos hp, if_pos hp]
      simp
    · rw [if_neg hp, if_neg hp, ih (i + 1), ih (0 + 1), Option.map_map]
      cases findIntPkFrom 0 rest with
      | none => rfl
      | some j => simp [Function.comp]

/-- First-index characterization of the source's primary-key search. -/
theorem findIntPk_iff (cols : List (String × String)) :
    ∀ j : Nat, findIntPk cols = some j ↔
      (∃ c, cols[j]? = some c ∧
        strStartsWith (casefold "integer primary key") (casefold c.2) = true) ∧
      (∀ i c2, i < j → cols[i]? = some c2 →
        strStartsWith (casefold "integer primary key")
          (casefold c2.2) = false) := by
  induction cols with
  | nil =>
    intro j
    constructor
    · intro h
      exact absurd h (by simp [findIntPk, findIntPkFrom])
    · rintro ⟨⟨c0, hc0, _⟩, _⟩
      simp at hc0
  | cons c rest ih =>
    intro j
    have hcons : findIntPk (c :: rest) =
        if strStartsWith (casefold "integer primary key")
            (casefold c.2) = true then some 0
        else findIntPkFrom 1 rest := rfl
    by_cases hp : strStartsWith (casefold "integer primary key")
        (casefold c.2) = true
    · rw [hcons, if_pos hp]
      constructor
      · intro h
        have hj : j = 0 := by
          have := Option.some.inj h
          omega
        subst hj
        exact ⟨⟨c, by simp, hp⟩, fun i c2 hi => absurd hi (by omega)⟩
      · rintro ⟨_, hmin⟩
        rcases j with _ | k
        · rfl
        · have := hmin 0 c (by omega) (by simp)
          rw [hp] at this
          exact Bool.noConfusion this
    · have hpf : strStartsWith (casefold "integer primary key")
          (casefold c.2) = false := by
        revert hp
        cases strStartsWith (casefold "integer primary key")
          (casefold c.2) <;> simp
      have hstep : findIntPk (c :: rest) =
          (findIntPk rest).map (fun j => 1 + j) := by
        rw [hcons, if_neg hp, findIntPkFrom_shift rest 1]
        rfl
      rw [hstep]
      rcases j with _ | k
      · constructor
        · intro h
          rcases h0 : findIntPk rest with _ | j0 <;> rw [h0] at h <;>
            simp at h
        · rintro ⟨⟨c0, hc0, hpc0⟩, _⟩
          simp at hc0
          subst hc0
          rw [hpc0] at hpf
          exact Bool.noConfusion hpf
      · constructor
        · intro h
          rcases h0 : findIntPk rest with _ | j0 <;> rw [h0] at h <;>
            simp at h
          have hk : j0 = k := by omega
          subst hk
          obtain ⟨⟨c0, hc0, hpc0⟩, hmin⟩ := (ih j0).mp h0
          refine ⟨⟨c0, by simpa using hc0, hpc0⟩, ?_⟩
          intro i c2 hi hic2
          rcases i with _ | m
          · simp at hic2
            subst hic2
            exact hpf
          · simp at hic2
            exact hmin m c2 (by omega) hic2
        · rintro ⟨⟨c0, hc0, hpc0⟩, hmin⟩
          simp at hc0
          have hsome : findIntPk rest = some k := by
            refine (ih k).mpr ⟨⟨c0, hc0, hpc0⟩, ?_⟩
            intro i c2 hi hic2
            exact hmin (i + 1) c2 (by omega) (by simpa using hic2)
          rw [hsome]
          simp [Nat.add_comm]

/-- C6 counterexample: the stored text
`CREATE TABLE t (id integer primary keys)` parses to a single column of
declared type `integer primary keys`.  Its lowercased token list is
`[integer, primary, keys]`, which does *not* begin with the three tokens
`integer`, `primary`, `key`, yet the source's string-prefix test
`type.casefold().startswith("integer primary key")` matches, so the
resolved `int_pk_column` is 0 where the claim requires none. -/
theorem c6_token_rule_counterexample :
    parseCreate "CREATE TABLE t (id integer primary keys)" =
      .ok ("t", [("id", "integer primary keys")]) ∧
    findIntPk [("id", "integer primary keys")] = some 0 ∧
    findIntPkSpec [("id", "integer primary keys")] = none := by
  decide

/-- C6 (amended): for every stored `CREATE TABLE` text, the resolved
`int_pk_column` is the index of the first column whose declared type,
lowercased, begins with the *string* `integer primary key` (a plain
`str.startswith` test, not a token-wise one); if no column's type does,
the table has no primary-key alias. -/
theorem c6_string_prefix_rule :
    ∀ (text name : String) (cols : List (String × String)) (j : Nat),
      parseCreate text = .ok (name, cols) →
      (findIntPk cols = some j ↔
        (∃ c, cols[j]? = some c ∧
          strStartsWith (casefold "integer primary key")
            (casefold c.2) = true) ∧
        (∀ i c2, i < j → cols[i]? = some c2 →
          strStartsWith (casefold "integer primary key")
            (casefold c2.2) = false)) := by
  intro text name cols j _
  exact findIntPk_iff cols j

/-- C6 witness: the characterization applied to the parsed text
`CREATE TABLE t2 (id integer primary key)` at index 0. -/
theorem c6_witness :
    findIntPk [("id", "integer primary key")] = some 0 ↔
      (∃ c, ([("id", "integer primary key")] :
            List (String × String))[0]? = some c ∧
        strStartsWith (casefold "integer primary key")
          (casefold c.2) = true) ∧
      (∀ i c2, i < 0 → ([("id", "integer primary key")] :
            List (String × String))[i]? = some c2 →
        strStartsWith (casefold "integer primary key")
          (casefold c2.2) = false) :=
  c6_string_prefix_rule "CREATE TABLE t2 (id integer primary key)" "t2"
    [("id", "integer primary key")] 0 (by decide)

/-- C8 (amended): `decode_page_header` performs no validation of the type
byte.  Whenever it succeeds with a type outside the interior set {2, 5}
it has consumed 8 bytes and reports `rightmost_pointer = 0`, and whenever
the 8 header bytes are present and the type byte is outside {2, 5} it
*does* succeed (never a `Malformed` failure), whatever the type byte. -/
theorem c8_no_type_validation :
    (∀ (page : List Nat) (first : Bool) (h : BTreeHeader) (br : Nat),
      parseBtreeHeader page first = some (h, br) →
      h.type ≠ 2 → h.type ≠ 5 → br = 8 ∧ h.rightmostPointer = 0) ∧
    (∀ (page : List Nat) (first : Bool) (t : Nat),
      u8At page (if first then 100 else 0) = some t →
      t ≠ 2 → t ≠ 5 → (if first then 100 else 0) + 8 ≤ page.length →
      ∃ h, parseBtreeHeader page first = some (h, 8) ∧
        h.type = t ∧ h.rightmostPointer = 0) := by
  constructor
  · intro page first h br heq h2 h5
    simp only [parseBtreeHeader] at heq
    rcases hu0 : u8At page (if first then 100 else 0) with _ | t <;>
      rw [hu0] at heq
    · exact absurd heq (by simp)
    rcases hu1 : u16At page ((if first then 100 else 0) + 1) with _ | ff <;>
      rw [hu1] at heq
    · exact absurd heq (by simp)
    rcases hu3 : u16At page ((if first then 100 else 0) + 3) with _ | cc <;>
      rw [hu3] at heq
    · exact absurd heq (by simp)
    rcases hu5 : u16At page ((if first then 100 else 0) + 5) with _ | ccs <;>
      rw [hu5] at heq
    · exact absurd heq (by simp)
    rcases hu7 : u8At page ((if first then 100 else 0) + 7) with _ | fr <;>
      rw [hu7] at heq
    · exact absurd heq (by simp)
    simp only at heq
    by_cases ht : t = 2 ∨ t = 5
    · rw [if_pos ht] at heq
      rcases hu8 : u32At page ((if first then 100 else 0) + 8) with _ | rm <;>
        rw [hu8] at heq
      · exact absurd heq (by simp)
      · have hh := (Prod.mk.injEq _ _ _ _).mp (Option.some.inj heq)
        have htype : h.type = t := by rw [← hh.1]
        rcases ht with ht | ht <;> rw [ht] at htype
        · exact absurd htype h2
        · exact absurd htype h5
    · rw [if_neg ht] at heq
      have hh := (Prod.mk.injEq _ _ _ _).mp (Option.some.inj heq)
      refine ⟨hh.2.symm, ?_⟩
      rw [← hh.1]
  · intro page first t hu0 h2 h5 hlen
    set off := if first then 100 else 0 with hoff
    have hbyte : ∀ i, i < page.length → ∃ a, page[i]? = some a :=
      fun i hi => ⟨page[i], List.getElem?_eq_getElem hi⟩
    obtain ⟨a1, ha1⟩ := hbyte (off + 1) (by omega)
    obtain ⟨a2, ha2⟩ := hbyte (off + 2) (by omega)
    obtain ⟨a3, ha3⟩ := hbyte (off + 3) (by omega)
    obtain ⟨a4, ha4⟩ := hbyte (off + 4) (by omega)
    obtain ⟨a5, ha5⟩ := hbyte (off + 5) (by omega)
    obtain ⟨a6, ha6⟩ := hbyte (off + 6) (by omega)
    obtain ⟨a7, ha7⟩ := hbyte (off + 7) (by omega)
    have hu1 : u16At page (off + 1) = some (a1 * 256 + a2) := by
      unfold u16At; rw [ha1, show off + 1 + 1 = off + 2 from rfl, ha2]
    have hu3 : u16At page (off + 3) = some (a3 * 256 + a4) := by
      unfold u16At; rw [ha3, show off + 3 + 1 = off + 4 from rfl, ha4]
    have hu5 : u16At page (off + 5) = some (a5 * 256 + a6) := by
      unfold u16At; rw [ha5, show off + 5 + 1 = off + 6 from rfl, ha6]
    have hu7 : u8At page (off + 7) = some a7 := ha7
    have ht : ¬(t = 2 ∨ t = 5) := by tauto
    refine ⟨⟨t, a1 * 256 + a2, a3 * 256 + a4,
      (if a5 * 256 + a6 = 0 then 65536 else a5 * 256 + a6), a7, 0⟩, ?_, rfl, rfl⟩
    simp only [parseBtreeHeader]
    rw [← hoff, hu0, hu1, hu3, hu5, hu7]
    simp only [ht, if_neg]
    simp

/-- C8 witness for the amended theorem: both parts applied to the
concrete type-7 page. -/
theorem c8_witness :
    ((8 : Nat) = 8 ∧
      (⟨7, 0, 0, 65536, 0, 0⟩ : BTreeHeader).rightmostPointer = 0) ∧
    ∃ h, parseBtreeHeader [7, 0, 0, 0, 0, 0, 0, 0] false = some (h, 8) ∧
      h.type = 7 ∧ h.rightmostPointer = 0 :=
  ⟨c8_no_type_validation.1 [7, 0, 0, 0, 0, 0, 0, 0] false
      ⟨7, 0, 0, 65536, 0, 0⟩ 8 (by decide) (by decide) (by decide),
    c8_no_type_validation.2 [7, 0, 0, 0, 0, 0, 0, 0] false 7
      (by decide) (by decide) (by decide) (by decide)⟩

/-- C9 (amended): for every `id ≥ 1`, `read_page` returns — without any
error — the byte slice of the file starting at `(id - 1) * page_size`,
truncated to the available bytes: its length is
`min page_size (file_length - (id - 1) * page_size)`, which is shorter
than `page_size` near end of file rather than an `Io` failure. -/
theorem c9_get_page_slice :
    ∀ (file : List Nat) (ps : Nat) (dec : List Nat → Option String)
      (id : Nat), 1 ≤ id →
      getPage file ⟨ps, dec⟩ id = .ok (pySlice file ((id - 1) * ps) ps) ∧
      (pySlice file ((id - 1) * ps) ps).length =
        min ps (file.length - (id - 1) * ps) := by
  intro file ps dec id hid
  constructor
  · unfold getPage pySlice
    rw [if_neg (by omega)]
  · unfold pySlice
    simp [List.length_take, List.length_drop]

/-- C9 witness for the amended theorem, at the short 4-byte file. -/
theorem c9_witness :
    getPage [1, 2, 3, 4] ⟨8, fun _ => none⟩ 1 =
      .ok (pySlice [1, 2, 3, 4] ((1 - 1) * 8) 8) ∧
    (pySlice [1, 2, 3, 4] ((1 - 1) * 8) 8).length =
      min 8 (([1, 2, 3, 4] : List Nat).length - (1 - 1) * 8) :=
  c9_get_page_slice [1, 2, 3, 4] 8 (fun _ => none) 1 (by decide)

/-- C4 (code bug): in `skewDemoFile` the scan's root is page 1, an
interior page whose only child is its rightmost pointer, page 2.  Page 2
is a valid table leaf at offset 0 holding the row `(rowid 1, [int 7])`.
The claim requires every child page to be decoded starting at offset 0
even when the scan's root is page 1 — the behavior of the
`readTableSpec` rendering of the claim, which yields the row.  The
source instead passes `is_first_page = (table_info.rootpage == 1)` on
*every* recursive call (`main.py:345-349`), so it decodes page 2 at
offset 100 (all zeros there: type 0, zero cells) and silently yields
nothing. -/
theorem c4_child_page_skew_divergence :
    readTable skewDemoFile skewDemoCfg skewDemoTi [0] none 3 = .ok [] ∧
    readTableSpec skewDemoFile skewDemoCfg skewDemoTi [0] none 3 =
      .ok [[Value.int 7]] ∧
    readTable skewDemoFile skewDemoCfg skewDemoTi [0] none 3 ≠
      readTableSpec skewDemoFile skewDemoCfg skewDemoTi [0] none 3 := by
  decide

/-- An entry of `dictInsert d k v` is an old entry or the inserted pair. -/
theorem dictInsert_mem {d : List (Nat × Nat)} {k v : Nat} {kv : Nat × Nat}
    (h : kv ∈ dictInsert d k v) : kv ∈ d ∨ kv = (k, v) := by
  unfold dictInsert at h
  split at h
  · rcases List.mem_map.mp h with ⟨kv0, hkv0, heq⟩
    by_cases hk : (kv0.1 == k) = true
    · right
      rw [if_pos hk] at heq
      exact heq.symm
    · left
      rw [if_neg hk] at heq
      rw [← heq]
      exact hkv0
  · rcases List.mem_append.mp h with h | h
    · left; exact h
    · right; simpa using h

/-- Every `column_selection` entry `(column_id, order)` points back into
the projection: `selection[order] = column_id`. -/
theorem buildColSel_mem {sel : List Nat} {kv : Nat × Nat}
    (h : kv ∈ buildColSel sel) : sel[kv.2]? = some kv.1 := by
  have H : ∀ (l : List (Nat × Nat)) (d : List (Nat × Nat)),
      (∀ kv0 ∈ d, sel[kv0.2]? = some kv0.1) →
      (∀ oc ∈ l, sel[oc.1]? = some oc.2) →
      ∀ kv0 ∈ l.foldl (fun d oc => dictInsert d oc.2 oc.1) d,
        sel[kv0.2]? = some kv0.1 := by
    intro l
    induction l with
    | nil => intro d hd _ kv0 hkv0; exact hd kv0 hkv0
    | cons oc rest ih =>
      intro d hd hl kv0 hkv0
      refine ih (dictInsert d oc.2 oc.1) ?_ (fun x hx => hl x (by simp [hx]))
        kv0 hkv0
      intro kv1 hkv1
      rcases dictInsert_mem hkv1 with hin | hnew
      · exact hd kv1 hin
      · rw [hnew]
        exact hl oc (by simp)
  exact H sel.enum [] (by simp)
    (fun oc hoc => List.mem_enum_iff_getElem?.mp hoc) kv h

/-- A successful dict lookup exhibits a member entry. -/
theorem dictLookup_mem {d : List (Nat × Nat)} {k v : Nat}
    (h : dictLookup d k = some v) : (k, v) ∈ d := by
  unfold dictLookup at h
  rcases hf : d.find? (fun kv => kv.1 == k) with _ | kv <;> rw [hf] at h
  · exact absurd h (by simp)
  · have hv : kv.2 = v := by
      have := Option.some.inj h
      omega
    have hmem := List.mem_of_find?_eq_some hf
    have hpred := List.find?_some hf
    have hk : kv.1 = k := by simpa using hpred
    have : (k, v) = kv := by
      rw [← hk, ← hv]
    rw [this]
    exact hmem

/-- Any slot the dict names holds the column the projection lists
there. -/
theorem dictLookup_buildColSel_sound {sel : List Nat} {c s : Nat}
    (h : dictLookup (buildColSel sel) c = some s) : sel[s]? = some c :=
  buildColSel_mem (dictLookup_mem h)

/-- `map Prod.snd` undoes `enumFrom`. -/
theorem enumFrom_snd {α : Type} (l : List α) :
    ∀ n : Nat, (l.enumFrom n).map Prod.snd = l := by
  induction l with
  | nil => intro n; rfl
  | cons a rest ih => intro n; simp [List.enumFrom, ih]

/-- With duplicate-free keys, the dict fold is a plain append of the
swapped pairs. -/
theorem foldl_dictInsert_fresh :
    ∀ (l : List (Nat × Nat)) (d : List (Nat × Nat)),
      (l.map Prod.snd).Nodup →
      (∀ oc ∈ l, ∀ kv ∈ d, kv.1 ≠ oc.2) →
      l.foldl (fun d oc => dictInsert d oc.2 oc.1) d =
        d ++ l.map (fun oc => (oc.2, oc.1)) := by
  intro l
  induction l with
  | nil => intro d _ _; simp
  | cons oc rest ih =>
    intro d hnd hfresh
    have hins : dictInsert d oc.2 oc.1 = d ++ [(oc.2, oc.1)] := by
      unfold dictInsert
      rw [if_neg]
      simp only [List.any_eq_true, not_exists, not_and]
      intro kv hkv
      have := hfresh oc (by simp) kv hkv
      simpa using this
    have hnd2 : (rest.map Prod.snd).Nodup := by
      simpa using hnd.of_cons
    have hhead : oc.2 ∉ rest.map Prod.snd := by
      have h3 : (oc.2 :: rest.map Prod.snd).Nodup := by simpa using hnd
      exact (List.nodup_cons.mp h3).1
    rw [List.foldl_cons, hins, ih (d ++ [(oc.2, oc.1)]) hnd2 ?_]
    · simp
    · intro oc2 hoc2 kv hkv
      rcases List.mem_append.mp hkv with hin | hnew
      · exact hfresh oc2 (by simp [hoc2]) kv hin
      · have hkv2 : kv = (oc.2, oc.1) := by simpa using hnew
        rw [hkv2]
        show oc.2 ≠ oc2.2
        intro hc
        apply hhead
        rw [hc]
        exact List.mem_map.mpr ⟨oc2, hoc2, rfl⟩

/-- For a duplicate-free projection, `column_selection` is exactly the
swapped enumeration of the projection. -/
theorem buildColSel_eq_of_nodup {sel : List Nat} (h : sel.Nodup) :
    buildColSel sel = sel.enum.map (fun oc => (oc.2, oc.1)) := by
  have := foldl_dictInsert_fresh sel.enum [] ?_ (by simp)
  · simpa [buildColSel] using this
  · show ((List.enumFrom 0 sel).map Prod.snd).Nodup
    rw [enumFrom_snd]
    exact h

/-- For a duplicate-free projection the dict has one entry per selected
column. -/
theorem buildColSel_length_of_nodup {sel : List Nat} (h : sel.Nodup) :
    (buildColSel sel).length = sel.length := by
  rw [buildColSel_eq_of_nodup h]
  simp

/-- Looking up a selected column in the swapped enumeration yields its
(first) projection slot. -/
theorem dictLookup_enumFrom_swap :
    ∀ (sel : List Nat) (n i c : Nat), sel.Nodup → sel[i]? = some c →
      dictLookup ((sel.enumFrom n).map (fun oc => (oc.2, oc.1))) c =
        some (n + i) := by
  intro sel
  induction sel with
  | nil => intro n i c _ h2; simp at h2
  | cons a rest ih =>
    intro n i c hnd h2
    rcases i with _ | k
    · have hac : a = c := by simpa using h2
      subst hac
      unfold dictLookup
      rw [show ((a :: rest).enumFrom n).map (fun oc => (oc.2, oc.1)) =
        (a, n) :: (rest.enumFrom (n + 1)).map (fun oc => (oc.2, oc.1)) from by
          simp [List.enumFrom]]
      rw [List.find?_cons_of_pos _ (by simp)]
      simp
    · have hrest : rest[k]? = some c := by simpa using h2
      have hcr : c ∈ rest := by
        have := List.getElem?_eq_some.mp hrest
        rcases this with ⟨hk, hc⟩
        rw [← hc]
        exact List.getElem_mem hk
      have hane : a ≠ c := by
        intro hc
        subst hc
        exact (List.nodup_cons.mp hnd).1 hcr
      rw [show ((a :: rest).enumFrom n).map (fun oc => (oc.2, oc.1)) =
        (a, n) :: (rest.enumFrom (n + 1)).map (fun oc => (oc.2, oc.1)) from by
          simp [List.enumFrom]]
      unfold dictLookup
      rw [List.find?_cons_of_neg _ (by simpa using hane)]
      have := ih (n + 1) k c (List.nodup_cons.mp hnd).2 hrest
      unfold dictLookup at this
      rcases hf : List.find?
          (fun kv => kv.1 == c)
          ((rest.enumFrom (n + 1)).map (fun oc => (oc.2, oc.1))) with _ | kv <;>
        rw [hf] at this
      · exact absurd this (by simp)
      · rw [hf]
        have harith : n + 1 + k = n + (k + 1) := by omega
        rw [harith] at this
        exact this

/-- For a duplicate-free projection, each selected column's dict slot is
its projection position. -/
theorem dictLookup_buildColSel_complete {sel : List Nat} {i c : Nat}
    (hnd : sel.Nodup) (h : sel[i]? = some c) :
    dictLookup (buildColSel sel) c = some i := by
  rw [buildColSel_eq_of_nodup hnd]
  have := dictLookup_enumFrom_swap sel 0 i c hnd h
  simpa using this

/-- `sizesSum` distributes over cons. -/
theorem sizesSum_cons (a : Nat × Nat) (l : List (Nat × Nat)) :
    sizesSum (a :: l) = a.2 + sizesSum l := by
  simp [sizesSum]

/-- Invariant of the column loop of `parse_record` on a run that returns
a row: the result vector has the length of `column_values`, each selected
column's slot holds the value decoded at that column's payload offset,
and unselected slots are untouched. -/
theorem recordLoop_slots (cfg : DBConfig) (ti : TableInfo) (page : List Nat)
    (rowid : Nat) (w : Option (Nat × String)) (colSel : List (Nat × Nat))
    (tot : Nat)
    (hinj : ∀ c1 c2 s, dictLookup colSel c1 = some s →
      dictLookup colSel c2 = some s → c1 = c2) :
    ∀ (cts : List (Nat × Nat)) (colId off : Nat) (colVals out : List Value)
      (fin : Nat),
      recordLoop cfg ti page rowid w colSel tot cts colId off colVals =
        .ok (some out, fin) →
      out.length = colVals.length ∧
      (∀ k s, k < cts.length → dictLookup colSel (colId + k) = some s →
        ∃ st sz, cts[k]? = some (st, sz) ∧
          ∃ v, decodeColumnValue cfg ti page rowid
              (off + sizesSum (cts.take k)) (colId + k) st = .ok v ∧
            out[s]? = some v) ∧
      (∀ s, (∀ k, k < cts.length → dictLookup colSel (colId + k) ≠ some s) →
        out[s]? = colVals[s]?) := by
  intro cts
  induction cts with
  | nil =>
    intro colId off colVals out fin hrun
    unfold recordLoop at hrun
    have h1 := Option.some.inj ((Prod.mk.injEq _ _ _ _).mp
      (Except.ok.inj hrun)).1
    subst h1
    refine ⟨rfl, ?_, ?_⟩
    · intro k s hk; exact absurd hk (by simp)
    · intro s _; rfl
  | cons hd rest ih =>
    rcases hd with ⟨st, sz⟩
    intro colId off colVals out fin hrun
    unfold recordLoop at hrun
    split at hrun
    · rename_i hsk
      have hnone : dictLookup colSel colId = none := by
        have := (Bool.and_eq_true _ _).mp hsk
        exact Option.isNone_iff_eq_none.mp this.1
      obtain ⟨hlen, hsel, huns⟩ := ih (colId + 1) (off + sz) colVals out fin hrun
      refine ⟨hlen, ?_, ?_⟩
      · intro k s hk hlk
        rcases k with _ | k2
        · rw [Nat.add_zero] at hlk
          rw [hnone] at hlk
          exact absurd hlk (by simp)
        · have hsh : colId + (k2 + 1) = (colId + 1) + k2 := by omega
          rw [hsh] at hlk
          obtain ⟨st2, sz2, hcts, v, hdec, hout⟩ :=
            hsel k2 s (by simpa using hk) hlk
          refine ⟨st2, sz2, by simpa using hcts, v, ?_, hout⟩
          rw [show ((st, sz) :: rest).take (k2 + 1) =
            (st, sz) :: rest.take k2 from rfl, sizesSum_cons]
          rw [show off + (sz + sizesSum (rest.take k2)) =
            off + sz + sizesSum (rest.take k2) from by omega]
          rw [← hsh] at hdec
          exact hdec
      · intro s hno
        refine huns s ?_
        intro k hk
        have hsh : (colId + 1) + k = colId + (k + 1) := by omega
        rw [hsh]
        exact hno (k + 1) (by simpa using hk)
    · split at hrun
      · exact absurd hrun (by simp)
      rename_i v hdec
      split at hrun
      · have := ((Prod.mk.injEq _ _ _ _).mp (Except.ok.inj hrun)).1
        exact absurd this (by simp)
      split at hrun
      · -- dictLookup colSel colId = some s0
        rename_i s0 hlk0
        split at hrun
        · rename_i hs0
          obtain ⟨hlen, hsel, huns⟩ :=
            ih (colId + 1) (off + sz) (colVals.set s0 v) out fin hrun
          have hlen2 : out.length = colVals.length := by
            rw [hlen, List.length_set]
          refine ⟨hlen2, ?_, ?_⟩
          · intro k s hk hlk
            rcases k with _ | k2
            · rw [Nat.add_zero] at hlk
              rw [hlk0] at hlk
              have hss : s = s0 := by
                have := Option.some.inj hlk
                omega
              subst hss
              refine ⟨st, sz, by simp, v, ?_, ?_⟩
              · rw [show ((st, sz) :: rest).take 0 = [] from rfl]
                rw [show sizesSum [] = 0 from rfl, Nat.add_zero]
                exact hdec
              · have hout := huns s ?_
                · rw [hout]
                  exact List.getElem?_set_eq_of_lt v hs0
                · intro k hk hcontra
                  have : colId + 1 + k = colId := hinj _ _ s hcontra hlk0
                  omega
            · have hsh : colId + (k2 + 1) = (colId + 1) + k2 := by omega
              rw [hsh] at hlk
              obtain ⟨st2, sz2, hcts, v2, hdec2, hout⟩ :=
                hsel k2 s (by simpa using hk) hlk
              refine ⟨st2, sz2, by simpa using hcts, v2, ?_, hout⟩
              rw [show ((st, sz) :: rest).take (k2 + 1) =
                (st, sz) :: rest.take k2 from rfl, sizesSum_cons]
              rw [show off + (sz + sizesSum (rest.take k2)) =
                off + sz + sizesSum (rest.take k2) from by omega]
              rw [← hsh] at hdec2
              exact hdec2
          · intro s hno
            have hs0ne : s ≠ s0 := by
              intro hc
              subst hc
              exact hno 0 (by simp) (by rw [Nat.add_zero]; exact hlk0)
            have hout := huns s ?_
            · rw [hout]
              exact List.getElem?_set_ne (by omega)
            · intro k hk
              have hsh : (colId + 1) + k = colId + (k + 1) := by omega
              rw [hsh]
              exact hno (k + 1) (by simpa using hk)
        · exact absurd hrun (by simp)
      · -- dictLookup colSel colId = none
        rename_i hlk0
        obtain ⟨hlen, hsel, huns⟩ := ih (colId + 1) (off + sz) colVals out fin hrun
        refine ⟨hlen, ?_, ?_⟩
        · intro k s hk hlk
          rcases k with _ | k2
          · rw [Nat.add_zero] at hlk
            rw [hlk0] at hlk
            exact absurd hlk (by simp)
          · have hsh : colId + (k2 + 1) = (colId + 1) + k2 := by omega
            rw [hsh] at hlk
            obtain ⟨st2, sz2, hcts, v2, hdec2, hout⟩ :=
              hsel k2 s (by simpa using hk) hlk
            refine ⟨st2, sz2, by simpa using hcts, v2, ?_, hout⟩
            rw [show ((st, sz) :: rest).take (k2 + 1) =
              (st, sz) :: rest.take k2 from rfl, sizesSum_cons]
            rw [show off + (sz + sizesSum (rest.take k2)) =
              off + sz + sizesSum (rest.take k2) from by omega]
            rw [← hsh] at hdec2
            exact hdec2
        · intro s hno
          refine huns s ?_
          intro k hk
          have hsh : (colId + 1) + k = colId + (k + 1) := by omega
          rw [hsh]
          exact hno (k + 1) (by simpa using hk)

/-- C5 (amended): for every *duplicate-free* projection and every record
not rejected by the filter, `parse_record` returns a vector whose length
equals the length of the projection; each listed column that the record
contains has its decoded value at its slot in projection order, and a
listed column beyond the record's columns leaves NULL at its slot.
(With duplicate indices the source instead raises `IndexError`, see the
counterexample.) -/
theorem c5_projection_length_and_slots :
    ∀ (cfg : DBConfig) (ti : TableInfo) (page : List Nat) (rowid offset : Nat)
      (sel : List Nat) (w : Option (Nat × String)) (out : List Value)
      (consumed : Int) (cts : List (Nat × Nat)) (bodyStart tot : Nat),
      sel.Nodup →
      recordColTypes page offset = .ok (cts, bodyStart, tot) →
      parseRecord cfg ti page rowid offset sel w = .ok (some out, consumed) →
      out.length = sel.length ∧
      (∀ (i colId : Nat), sel[i]? = some colId → colId < cts.length →
        ∃ st sz, cts[colId]? = some (st, sz) ∧
          ∃ v, decodeColumnValue cfg ti page rowid
              (bodyStart + sizesSum (cts.take colId)) colId st = .ok v ∧
            out[i]? = some v) ∧
      (∀ (i colId : Nat), sel[i]? = some colId → cts.length ≤ colId →
        out[i]? = some Value.null) := by
  intro cfg ti page rowid offset sel w out consumed cts bodyStart tot
    hnd hct hrun
  have hinj : ∀ c1 c2 s, dictLookup (buildColSel sel) c1 = some s →
      dictLookup (buildColSel sel) c2 = some s → c1 = c2 := by
    intro c1 c2 s h1 h2
    have e1 := dictLookup_buildColSel_sound h1
    have e2 := dictLookup_buildColSel_sound h2
    rw [e1] at e2
    exact Option.some.inj e2
  unfold parseRecord at hrun
  rw [hct] at hrun
  simp only at hrun
  rcases hloop : recordLoop cfg ti page rowid w (buildColSel sel) tot cts 0
      bodyStart (List.replicate (buildColSel sel).length Value.null)
    with e | ⟨r, fin⟩ <;> rw [hloop] at hrun
  · exact absurd hrun (by simp)
  rcases r with _ | vals
  · exact absurd hrun (by simp)
  have hout : vals = out := by
    have := ((Prod.mk.injEq _ _ _ _).mp (Except.ok.inj hrun)).1
    exact Option.some.inj this
  subst hout
  obtain ⟨hlen, hsel, huns⟩ :=
    recordLoop_slots cfg ti page rowid w (buildColSel sel) tot hinj cts 0
      bodyStart (List.replicate (buildColSel sel).length Value.null) vals fin
      hloop
  have hlenSel : (buildColSel sel).length = sel.length :=
    buildColSel_length_of_nodup hnd
  have hlen2 : vals.length = sel.length := by
    rw [hlen, List.length_replicate, hlenSel]
  refine ⟨hlen2, ?_, ?_⟩
  · intro i colId hselI hlt
    have hlk : dictLookup (buildColSel sel) colId = some i :=
      dictLookup_buildColSel_complete hnd hselI
    obtain ⟨st, sz, hcts, v, hdec, hv⟩ := hsel colId i hlt
      (by rw [Nat.zero_add]; exact hlk)
    refine ⟨st, sz, hcts, v, ?_, hv⟩
    rw [Nat.zero_add] at hdec
    exact hdec
  · intro i colId hselI hge
    have hilen : i < sel.length := by
      rcases List.getElem?_eq_some.mp hselI with ⟨hi, _⟩
      exact hi
    have hvals := huns i ?_
    · rw [hvals]
      rw [List.getElem?_replicate]
      rw [if_pos (by omega)]
    · intro k hk hcontra
      rw [Nat.zero_add] at hcontra
      have := dictLookup_buildColSel_sound hcontra
      rw [hselI] at this
      have hkc : colId = k := Option.some.inj this
      omega

/-- C5 witness: the amended theorem applied to the concrete record
`[2, 1, 5]` (one serial-type-1 column, value 5) with projection `[0]`. -/
theorem c5_witness :
    ([Value.int 5] : List Value).length = ([0] : List Nat).length :=
  (c5_projection_length_and_slots sampleCfg sampleTi [2, 1, 5] 1 0 [0] none
    [Value.int 5] 3 [(1, 1)] 2 3 (by decide) (by decide) (by decide)).1

/-- Once the column loop has passed the filter column, it can no longer
reject the row: any `ok` result carries a row. -/
theorem recordLoop_no_filter_ahead (cfg : DBConfig) (ti : TableInfo)
    (page : List Nat) (rowid : Nat) (wc : Nat) (ws : String)
    (colSel : List (Nat × Nat)) (tot : Nat) :
    ∀ (cts : List (Nat × Nat)) (colId off : Nat) (colVals : List Value)
      (r : Option (List Value)) (fin : Nat),
      wc < colId →
      recordLoop cfg ti page rowid (some (wc, ws)) colSel tot cts colId off
        colVals = .ok (r, fin) →
      r.isSome = true := by
  intro cts
  induction cts with
  | nil =>
    intro colId off colVals r fin _ hrun
    unfold recordLoop at hrun
    have := ((Prod.mk.injEq _ _ _ _).mp (Except.ok.inj hrun)).1
    rw [← this]
    rfl
  | cons hd rest ih =>
    rcases hd with ⟨st, sz⟩
    intro colId off colVals r fin hlt hrun
    unfold recordLoop at hrun
    split at hrun
    · exact ih (colId + 1) (off + sz) colVals r fin (by omega) hrun
    · split at hrun
      · simp at hrun
      rename_i v _
      split at hrun
      · rename_i hrej
        have : colId = wc := by simpa using (Bool.and_eq_true _ _).mp hrej |>.1
        omega
      split at hrun
      · split at hrun
        · exact ih (colId + 1) (off + sz) _ r fin (by omega) hrun
        · simp at hrun
      · exact ih (colId + 1) (off + sz) colVals r fin (by omega) hrun

/-- On any `ok` run whose remaining columns still contain the filter
column, the result is a row exactly when the filter column's decoded
value equals the filter text. -/
theorem recordLoop_filter_char (cfg : DBConfig) (ti : TableInfo)
    (page : List Nat) (rowid : Nat) (wc : Nat) (ws : String)
    (colSel : List (Nat × Nat)) (tot : Nat) :
    ∀ (cts : List (Nat × Nat)) (colId off : Nat) (colVals : List Value)
      (r : Option (List Value)) (fin : Nat),
      colId ≤ wc → wc < colId + cts.length →
      recordLoop cfg ti page rowid (some (wc, ws)) colSel tot cts colId off
        colVals = .ok (r, fin) →
      ∃ st sz, cts[wc - colId]? = some (st, sz) ∧
        ∃ v, decodeColumnValue cfg ti page rowid
            (off + sizesSum (cts.take (wc - colId))) wc st = .ok v ∧
          r.isSome = valueEqStr v ws := by
  intro cts
  induction cts with
  | nil =>
    intro colId off colVals r fin hle hlt _
    simp at hlt
    omega
  | cons hd rest ih =>
    rcases hd with ⟨st, sz⟩
    intro colId off colVals r fin hle hlt hrun
    unfold recordLoop at hrun
    by_cases heq : colId = wc
    · subst heq
      split at hrun
      · rename_i hsk
        have := (Bool.and_eq_true _ _).mp hsk |>.2
        simp at this
      · split at hrun
        · simp at hrun
        rename_i v hdec
        have hzero : colId - colId = 0 := by omega
        split at hrun
        · rename_i hrej
          have hne : valueEqStr v ws = false := by
            simpa using hrej
          have hr : r = none := by
            have := ((Prod.mk.injEq _ _ _ _).mp (Except.ok.inj hrun)).1
            rw [← this]
          rw [hzero]
          refine ⟨st, sz, by simp, v, ?_, ?_⟩
          · rw [show (((st, sz) :: rest).take 0) = [] from rfl]
            rw [show sizesSum [] = 0 from rfl, Nat.add_zero]
            exact hdec
          · rw [hr, hne]
            rfl
        · rename_i hrej
          have hveq : valueEqStr v ws = true := by
            rcases hv : valueEqStr v ws with _ | _
            · exact absurd (by simp [hv]) hrej
            · rfl
          have hsome : r.isSome = true := by
            split at hrun
            · split at hrun
              · exact recordLoop_no_filter_ahead cfg ti page rowid colId ws
                  colSel tot rest (colId + 1) (off + sz) _ r fin
                  (by omega) hrun
              · simp at hrun
            · exact recordLoop_no_filter_ahead cfg ti page rowid colId ws
                colSel tot rest (colId + 1) (off + sz) colVals r fin
                (by omega) hrun
          rw [hzero]
          refine ⟨st, sz, by simp, v, ?_, ?_⟩
          · rw [show (((st, sz) :: rest).take 0) = [] from rfl]
            rw [show sizesSum [] = 0 from rfl, Nat.add_zero]
            exact hdec
          · rw [hsome, hveq]
    · have hlt2 : colId < wc := by omega
      have hidx : wc - colId = (wc - (colId + 1)) + 1 := by omega
      have hrec : ∀ (cv : List Value),
          recordLoop cfg ti page rowid (some (wc, ws)) colSel tot rest
            (colId + 1) (off + sz) cv = .ok (r, fin) →
          ∃ st2 sz2, (((st, sz) :: rest))[wc - colId]? = some (st2, sz2) ∧
            ∃ v2, decodeColumnValue cfg ti page rowid
                (off + sizesSum (((st, sz) :: rest).take (wc - colId))) wc
                st2 = .ok v2 ∧
              r.isSome = valueEqStr v2 ws := by
        intro cv hrun2
        obtain ⟨st2, sz2, hcts, v2, hdec2, hr⟩ :=
          ih (colId + 1) (off + sz) cv r fin (by omega) (by simp at hlt ⊢; omega)
            hrun2
        refine ⟨st2, sz2, ?_, v2, ?_, hr⟩
        · rw [hidx]
          simpa using hcts
        · rw [hidx]
          rw [show ((st, sz) :: rest).take ((wc - (colId + 1)) + 1) =
            (st, sz) :: rest.take (wc - (colId + 1)) from rfl, sizesSum_cons]
          rw [show off + (sz + sizesSum (rest.take (wc - (colId + 1)))) =
            off + sz + sizesSum (rest.take (wc - (colId + 1))) from by omega]
          exact hdec2
      split at hrun
      · exact hrec colVals hrun
      · split at hrun
        · simp at hrun
        split at hrun
        · rename_i hrej
          have : colId = wc := by simpa using (Bool.and_eq_true _ _).mp hrej |>.1
          omega
        split at hrun
        · split at hrun
          · exact hrec _ hrun
          · simp at hrun
        · exact hrec colVals hrun

/-- The `i = -1; for i, _ in enumerate(rows): pass` idiom counts the
rows. -/
theorem countStarOutput_eq_length (rows : List (List Value)) :
    countStarOutput rows = (rows.length : Int) := by
  have H : ∀ (l : List (List Value)) (x : Int),
      l.foldl (fun i _ => i + 1) x = x + l.length := by
    intro l
    induction l with
    | nil => intro x; simp
    | cons a rest ih =>
      intro x
      rw [List.foldl_cons, ih (x + 1), List.length_cons]
      push_cast
      ring
  unfold countStarOutput
  rw [H rows (-1)]
  omega

/-- The emitted rows are exactly the kept cells, one each. -/
theorem filterMap_snd_length (cells : CellRows) :
    (cells.filterMap (fun rc => rc.2)).length =
      (cells.filter (fun rc => rc.2.isSome)).length := by
  induction cells with
  | nil => rfl
  | cons rc rest ih =>
    rcases rc with ⟨rid, v⟩
    rcases v with _ | vals <;>
      simp [List.filterMap_cons, List.filter_cons, ih]

/-- C10: a `COUNT(*)` query prints the number of rows the traversal
yields — an empty scan prints 0 — and with a `WHERE` filter on a column
the record contains, `parse_record` keeps a row exactly when that
column's decoded value equals the string literal, so the count is the
number of rows whose filter column decodes equal to the literal. -/
theorem c10_count_star_filtered :
    countStarOutput [] = 0 ∧
    (∀ rows : List (List Value), countStarOutput rows = (rows.length : Int)) ∧
    (∀ (file : List Nat) (cfg : DBConfig) (ti : TableInfo) (sel : List Nat)
      (w : Option (Nat × String)) (fuel : Nat) (cells : CellRows),
      readTableTop file cfg ti sel w fuel = .ok cells →
      readTable file cfg ti sel w fuel =
        .ok (cells.filterMap (fun rc => rc.2)) ∧
      countStarOutput (cells.filterMap (fun rc => rc.2)) =
        ((cells.filter (fun rc => rc.2.isSome)).length : Int)) ∧
    (∀ (cfg : DBConfig) (ti : TableInfo) (page : List Nat)
      (rowid offset : Nat) (sel : List Nat) (wc : Nat) (ws : String)
      (r : Option (List Value)) (consumed : Int) (cts : List (Nat × Nat))
      (bodyStart tot : Nat),
      recordColTypes page offset = .ok (cts, bodyStart, tot) →
      wc < cts.length →
      parseRecord cfg ti page rowid offset sel (some (wc, ws)) =
        .ok (r, consumed) →
      ∃ st sz, cts[wc]? = some (st, sz) ∧
        ∃ v, decodeColumnValue cfg ti page rowid
            (bodyStart + sizesSum (cts.take wc)) wc st = .ok v ∧
          r.isSome = valueEqStr v ws) := by
  refine ⟨rfl, countStarOutput_eq_length, ?_, ?_⟩
  · intro file cfg ti sel w fuel cells htop
    constructor
    · unfold readTable readTableTop at *
      rcases hp : getPage file cfg ti.rootpage with e | pg <;> rw [hp] at htop
      · exact absurd htop (by simp)
      · rw [htop]
    · rw [countStarOutput_eq_length, filterMap_snd_length]
  · intro cfg ti page rowid offset sel wc ws r consumed cts bodyStart tot
      hct hwc hrun
    unfold parseRecord at hrun
    rw [hct] at hrun
    simp only at hrun
    rcases hloop : recordLoop cfg ti page rowid (some (wc, ws))
        (buildColSel sel) tot cts 0 bodyStart
        (List.replicate (buildColSel sel).length Value.null)
      with e | ⟨r2, fin⟩ <;> rw [hloop] at hrun
    · exact absurd hrun (by simp)
    have hchar := recordLoop_filter_char cfg ti page rowid wc ws
      (buildColSel sel) tot cts 0 bodyStart
      (List.replicate (buildColSel sel).length Value.null) r2 fin
      (by omega) (by omega) hloop
    have hrr : r.isSome = r2.isSome := by
      rcases r2 with _ | vals
      · have := ((Prod.mk.injEq _ _ _ _).mp (Except.ok.inj hrun)).1
        rw [← this]
      · have := ((Prod.mk.injEq _ _ _ _).mp (Except.ok.inj hrun)).1
        rw [← this]
    obtain ⟨st, sz, hcts, v, hdec, hr2⟩ := hchar
    rw [Nat.sub_zero] at hcts hdec
    exact ⟨st, sz, hcts, v, hdec, by rw [hrr, hr2]⟩

/-- C10 witness: the concrete two-row leaf scan with filter
`column 0 = "x"` (both integer rows mismatch, count 0), and the filter
characterization at the concrete record `[2, 1, 5]`. -/
theorem c10_witness :
    (readTable leafDemoFile sampleCfg sampleTi [] (some (0, "x")) 1 =
        .ok ([(1, none), (2, none)].filterMap
          (fun rc : Nat × Option (List Value) => rc.2)) ∧
      countStarOutput ([(1, none), (2, none)].filterMap
          (fun rc : Nat × Option (List Value) => rc.2)) =
        (([(1, none), (2, none)].filter
          (fun rc : Nat × Option (List Value) => rc.2.isSome)).length : Int)) ∧
    ∃ st sz, ([(1, 1)] : List (Nat × Nat))[0]? = some (st, sz) ∧
      ∃ v, decodeColumnValue sampleCfg sampleTi [2, 1, 5] 1
          (2 + sizesSum (([(1, 1)] : List (Nat × Nat)).take 0)) 0 st =
            .ok v ∧
        (none : Option (List Value)).isSome = valueEqStr v "x" :=
  ⟨c10_count_star_filtered.2.2.1 leafDemoFile sampleCfg sampleTi []
      (some (0, "x")) 1 [(1, none), (2, none)] (by decide),
    c10_count_star_filtered.2.2.2 sampleCfg sampleTi [2, 1, 5] 1 0 []
      0 "x" none 3 [(1, 1)] 2 3 (by decide) (by decide) (by decide)⟩

/-- Splitting a sequential sibling scan at an append point. -/
theorem childSeq_append_ok (child : Nat → Except PyErr CellRows) :
    ∀ (l1 l2 : List Nat) (c : CellRows),
      childSeq child (l1 ++ l2) = .ok c →
      ∃ a b, childSeq child l1 = .ok a ∧ childSeq child l2 = .ok b ∧
        c = a ++ b := by
  intro l1
  induction l1 with
  | nil =>
    intro l2 c h
    exact ⟨[], c, rfl, h, rfl⟩
  | cons p rest ih =>
    intro l2 c h
    rw [List.cons_append] at h
    unfold childSeq at h
    rcases hp : child p with e | a0 <;> rw [hp] at h
    · exact absurd h (by simp)
    rcases hr : childSeq child (rest ++ l2) with e | b0 <;> rw [hr] at h
    · exact absurd h (by simp)
    obtain ⟨a1, b1, ha1, hb1, hsplit⟩ := ih l2 b0 hr
    refine ⟨a0 ++ a1, b1, ?_, hb1, ?_⟩
    · unfold childSeq
      rw [hp, ha1]
    · have hc : c = a0 ++ b0 := (Except.ok.inj h).symm
      rw [hc, hsplit, List.append_assoc]

/-- Concatenating two bounded ascending runs at a shared bound. -/
theorem ascBounded_append {lo k hi : Int} {l1 l2 : List Nat}
    (h1 : AscBounded lo k l1) (h2 : AscBounded k hi l2)
    (hlk : lo ≤ k) (hkhi : k ≤ hi) : AscBounded lo hi (l1 ++ l2) := by
  obtain ⟨hc1, hb1⟩ := h1
  obtain ⟨hc2, hb2⟩ := h2
  constructor
  · apply List.Chain'.append hc1 hc2
    intro x hx y hy
    have hxmem : x ∈ l1 := by
      rcases l1 with _ | ⟨a, l⟩
      · simp at hx
      · exact List.mem_of_mem_getLast? hx
    have hymem : y ∈ l2 := by
      rcases l2 with _ | ⟨a, l⟩
      · simp at hy
      · exact List.mem_of_mem_head? hy
    have hxk := (hb1 x hxmem).2
    have hyk := (hb2 y hymem).1
    omega
  · intro r hr
    rcases List.mem_append.mp hr with hr | hr
    · have := hb1 r hr
      omega
    · have := hb2 r hr
      omega

/-- On an interior table page whose cell pointers and left-child ids all
decode, the cell loop of `_read_table` is exactly the sequential scan of
the child pages, in cell order. -/
theorem readCells_interior (child : Nat → Except PyErr CellRows)
    (cfg : DBConfig) (ti : TableInfo) (sel : List Nat)
    (w : Option (Nat × String)) (page : List Nat) :
    ∀ (count off : Nat) (cps kids : List Nat),
      cellPtrs page count off = some cps →
      cps.mapM (u32At page) = some kids →
      readCells child cfg ti sel w page 5 count off = childSeq child kids := by
  intro count
  induction count with
  | zero =>
    intro off cps kids hcp hkids
    have hcps : cps = [] := by
      have := Option.some.inj hcp
      rw [← this]
    subst hcps
    rw [List.mapM_nil] at hkids
    have hkids2 : kids = [] := by
      have h2 : some ([] : List Nat) = some kids := hkids
      exact (Option.some.inj h2).symm
    subst hkids2
    rfl
  | succ count ih =>
    intro off cps kids hcp hkids
    unfold cellPtrs at hcp
    rcases hu : u16At page off with _ | cp <;> rw [hu] at hcp
    · exact absurd hcp (by simp)
    rcases hrest : cellPtrs page count (off + 2) with _ | cpsRest <;>
      rw [hrest] at hcp
    · exact absurd hcp (by simp)
    have hcps : cps = cp :: cpsRest := by
      have := Option.some.inj hcp
      rw [← this]
    subst hcps
    rw [List.mapM_cons] at hkids
    rcases hu32 : u32At page cp with _ | kid <;> rw [hu32] at hkids
    · exact absurd hkids (by simp)
    rcases hmm : cpsRest.mapM (u32At page) with _ | kidsRest <;>
      rw [hmm] at hkids
    · exact absurd hkids (by simp)
    have hkids2 : kids = kid :: kidsRest := by
      have h2 : some (kid :: kidsRest) = some kids := hkids
      exact (Option.some.inj h2).symm
    subst hkids2
    unfold readCells
    rw [hu]
    dsimp only
    rw [if_pos rfl, hu32]
    dsimp only
    rw [ih (off + 2) cpsRest kidsRest hrest hmm]
    rw [show childSeq child (kid :: kidsRest) =
      (match child kid with
        | .error e => .error e
        | .ok a =>
          match childSeq child kidsRest with
          | .error e => .error e
          | .ok b => .ok (a ++ b)) from rfl]

/-- Main traversal-order invariant: a well-formed sequence of sibling
subtrees scans successfully and emits cell row ids strictly ascending
within its interval — each subtree's rows precede its right siblings',
and inside an interior page each child's rows precede the next cell's,
with the rightmost pointer's subtree last. -/
theorem wfseq_scan (file : List Nat) (cfg : DBConfig) (ti : TableInfo)
    (sel : List Nat) (w : Option (Nat × String)) :
    ∀ (fuel : Nat) (pids : List Nat) (lo hi : Int),
      WFSeq file cfg ti sel w fuel pids lo hi →
      ∃ cells, childSeq (tableChild file cfg ti sel w fuel) pids = .ok cells ∧
        AscBounded lo hi (cells.map Prod.fst) := by
  intro fuel pids lo hi hwf
  induction hwf with
  | nil fuel lo hi =>
    exact ⟨[], rfl, List.chain'_nil, by simp⟩
  | leaf fuel pid rest lo k hi page h br cells hgp hph ht hc hasc hbound hlk
      hkhi hrest ihrest =>
    obtain ⟨cells2, hseq2, hasc2⟩ := ihrest
    have hme : tableChild file cfg ti sel w (fuel + 1) pid = .ok cells := by
      unfold tableChild
      rw [hgp]
      unfold readTableAux
      rw [hph]
      dsimp only
      have hc2 : readCells (fun pgno => match getPage file cfg pgno with
          | .error e => .error e
          | .ok p => readTableAux file cfg ti sel w fuel p) cfg ti sel w page
          h.type h.cellCount
          (br + (if ti.rootpage == 1 then 100 else 0)) = .ok cells := hc
      rw [hc2]
      dsimp only
      rw [ht]
      rw [if_neg (by decide : ¬(13 : Nat) = 5)]
    refine ⟨cells ++ cells2, ?_, ?_⟩
    · rw [show childSeq (tableChild file cfg ti sel w (fuel + 1)) (pid :: rest) =
        (match tableChild file cfg ti sel w (fuel + 1) pid with
          | .error e => .error e
          | .ok a =>
            match childSeq (tableChild file cfg ti sel w (fuel + 1)) rest with
            | .error e => .error e
            | .ok b => .ok (a ++ b)) from rfl]
      rw [hme, hseq2]
    · rw [List.map_append]
      exact ascBounded_append ⟨hasc, hbound⟩ hasc2 hlk hkhi
  | interior fuel pid rest lo k hi page h br cps kids hgp hph ht hcp hkids
      hsub hlk hkhi hrest ihsub ihrest =>
    obtain ⟨c1, hs1, ha1⟩ := ihsub
    obtain ⟨c2, hs2, ha2⟩ := ihrest
    obtain ⟨a, b, hsk, hsr, hc1split⟩ :=
      childSeq_append_ok _ kids [h.rightmostPointer] c1 hs1
    have hsr2 : ∃ b0, tableChild file cfg ti sel w fuel h.rightmostPointer =
        .ok b0 ∧ b = b0 ++ [] := by
      rw [show childSeq (tableChild file cfg ti sel w fuel)
          [h.rightmostPointer] =
        (match tableChild file cfg ti sel w fuel h.rightmostPointer with
          | .error e => .error e
          | .ok a0 => .ok (a0 ++ ([] : CellRows))) from rfl] at hsr
      rcases hrm : tableChild file cfg ti sel w fuel h.rightmostPointer
        with e | b0 <;> rw [hrm] at hsr
      · exact absurd hsr (by simp)
      · exact ⟨b0, rfl, by simpa using (Except.ok.inj hsr).symm⟩
    obtain ⟨b0, hrm, hb⟩ := hsr2
    have hme : tableChild file cfg ti sel w (fuel + 1) pid =
        .ok (a ++ b0) := by
      unfold tableChild
      rw [hgp]
      unfold readTableAux
      rw [hph]
      dsimp only
      rw [ht]
      have hrc : readCells (fun pgno => match getPage file cfg pgno with
          | .error e => .error e
          | .ok p => readTableAux file cfg ti sel w fuel p) cfg ti sel w page
          5 h.cellCount (br + (if ti.rootpage == 1 then 100 else 0)) =
          childSeq (tableChild file cfg ti sel w fuel) kids :=
        readCells_interior (tableChild file cfg ti sel w fuel) cfg ti sel w
          page h.cellCount _ cps kids hcp hkids
      rw [hrc, hsk]
      dsimp only
      rw [if_pos rfl]
      have hrm2 := hrm
      unfold tableChild at hrm2
      rcases hg : getPage file cfg h.rightmostPointer with e | rp <;>
        rw [hg] at hrm2
      · exact absurd hrm2 (by simp)
      · have hrm3 : readTableAux file cfg ti sel w fuel rp = .ok b0 := hrm2
        dsimp only
        rw [hrm3]
    refine ⟨(a ++ b0) ++ c2, ?_, ?_⟩
    · rw [show childSeq (tableChild file cfg ti sel w (fuel + 1)) (pid :: rest) =
        (match tableChild file cfg ti sel w (fuel + 1) pid with
          | .error e => .error e
          | .ok a2 =>
            match childSeq (tableChild file cfg ti sel w (fuel + 1)) rest with
            | .error e => .error e
            | .ok b2 => .ok (a2 ++ b2)) from rfl]
      rw [hme, hs2]
    · rw [List.map_append]
      have hc1e : c1 = a ++ b0 := by
        rw [hc1split, hb]
        simp
      have ha1b : AscBounded lo k ((a ++ b0).map Prod.fst) := by
        rw [← hc1e]
        exact ha1
      exact ascBounded_append ha1b ha2 hlk hkhi

/-- C2: for every scan of a well-formed table B-tree from any root page
(`WFSeq` of the singleton root), the traversal succeeds and the visited
cells' row ids are strictly ascending — on each interior page all rows
of cell `i`'s subtree are yielded before cell `i+1`'s, with the rightmost
pointer's subtree last (this ordering is what the `WFSeq` induction of
`wfseq_scan` establishes) — and therefore the emitted (non-filtered)
rows of `read_table` are strictly ascending by row id as well. -/
theorem c2_scan_rowids_strictly_ascending :
    ∀ (file : List Nat) (cfg : DBConfig) (ti : TableInfo) (sel : List Nat)
      (w : Option (Nat × String)) (fuel : Nat) (lo hi : Int),
      WFSeq file cfg ti sel w fuel [ti.rootpage] lo hi →
      ∃ cells, readTableTop file cfg ti sel w fuel = .ok cells ∧
        List.Chain' (· < ·) (cells.map Prod.fst) ∧
        readTable file cfg ti sel w fuel =
          .ok (cells.filterMap (fun rc => rc.2)) ∧
        List.Chain' (· < ·)
          ((cells.filter (fun rc => rc.2.isSome)).map Prod.fst) := by
  intro file cfg ti sel w fuel lo hi hwf
  obtain ⟨cells0, hseq, hasc⟩ :=
    wfseq_scan file cfg ti sel w fuel [ti.rootpage] lo hi hwf
  rw [show childSeq (tableChild file cfg ti sel w fuel) [ti.rootpage] =
    (match tableChild file cfg ti sel w fuel ti.rootpage with
      | .error e => .error e
      | .ok a0 => .ok (a0 ++ ([] : CellRows))) from rfl] at hseq
  rcases hrt : tableChild file cfg ti sel w fuel ti.rootpage with e | c0 <;>
    rw [hrt] at hseq
  · exact absurd hseq (by simp)
  have hc0 : cells0 = c0 := by
    have := (Except.ok.inj hseq).symm
    rw [this]
    simp
  rw [hc0] at hasc
  have htop : readTableTop file cfg ti sel w fuel = .ok c0 := hrt
  refine ⟨c0, htop, hasc.1, ?_, ?_⟩
  · unfold readTable
    rw [htop]
  · exact List.Chain'.sublist hasc.1
      (List.Sublist.map Prod.fst (List.filter_sublist c0))

/-- C2 witness: the single-leaf demo table (rows with row ids 1 and 2),
whose well-formedness derivation is checked concretely. -/
theorem c2_witness :
    ∃ cells, readTableTop leafDemoFile sampleCfg sampleTi [0] none 1 =
        .ok cells ∧
      List.Chain' (· < ·) (cells.map Prod.fst) ∧
      readTable leafDemoFile sampleCfg sampleTi [0] none 1 =
        .ok (cells.filterMap (fun rc => rc.2)) ∧
      List.Chain' (· < ·)
        ((cells.filter (fun rc => rc.2.isSome)).map Prod.fst) := by
  apply c2_scan_rowids_strictly_ascending leafDemoFile sampleCfg sampleTi
    [0] none 1 0 2
  exact WFSeq.leaf 0 2 [] 0 2 2 leafDemoPage ⟨13, 0, 2, 65536, 0, 0⟩ 8
    [(1, some [Value.int 10]), (2, some [Value.int 20])]
    (by decide) (by decide) (by decide) (by decide)
    (by simp [List.chain'_cons]) (by decide)
    (by decide) (by decide) (WFSeq.nil 1 2 2)
